import Mathlib

/-!
Verification of the compactmapper LAS point-cloud codec and CSV grouping core.

The Go source is shallowly embedded as follows:

* Byte streams (`[]byte`, file contents) are `List Nat`, each entry a byte
  value; little-endian multi-byte writes/reads mirror `encoding/binary`.
* Machine integers (`uint16`, `uint32`, `int32`, `uint8`) become `Nat`/`Int`
  with explicit `% 2^w` wrapping where the code converts between widths.
* `float64` coordinate arithmetic is modelled by exact rationals `ℚ`
  (the Go code's scale `0.001` becomes the exact rational `1/1000`).
  The twelve `float64` header fields (scales, offsets, bounds) are carried
  as side fields of the modelled file, their 8-byte slots in the raw header
  holding placeholder zeros.  The `float64` GPS-time of a point is modelled
  by its IEEE-754 bit pattern (a `Nat < 2^64`), since the writer and reader
  move it through `math.Float64bits`/`math.Float64frombits`, which are
  mutually inverse bijections: bit-pattern equality is float equality.
* Go strings are byte lists (`List Nat` of ASCII/UTF-8 byte values).
-/

namespace CompactMapper

/-- ASCII bytes of a character list (for readable byte-string literals). -/
def asciiOf (s : List Char) : List Nat := s.map Char.toNat

/-- `binary.LittleEndian.PutUint16`: two little-endian bytes. -/
def le16 (n : Nat) : List Nat := [n % 256, n / 256 % 256]

/-- `binary.LittleEndian.PutUint32`: four little-endian bytes. -/
def le32 (n : Nat) : List Nat :=
  [n % 256, n / 256 % 256, n / 65536 % 256, n / 16777216 % 256]

/-- `binary.LittleEndian.PutUint64`: eight little-endian bytes. -/
def le64 (n : Nat) : List Nat := le32 (n % 4294967296) ++ le32 (n / 4294967296)

/-- `binary.LittleEndian.Uint16` on the first two bytes of a stream. -/
def rd16 (s : List Nat) : Nat := s.getD 0 0 + 256 * s.getD 1 0

/-- `binary.LittleEndian.Uint32` on the first four bytes of a stream. -/
def rd32 (s : List Nat) : Nat :=
  s.getD 0 0 + 256 * s.getD 1 0 + 65536 * s.getD 2 0 + 16777216 * s.getD 3 0

/-- `binary.LittleEndian.Uint64` on the first eight bytes of a stream. -/
def rd64 (s : List Nat) : Nat := rd32 s + 4294967296 * rd32 (s.drop 4)

/-- Go's `uint32(x)` applied to a signed 32-bit value: two's-complement wrap. -/
def toU32 (i : Int) : Nat := (i % 4294967296).toNat

/-- Go's `int32(binary.LittleEndian.Uint32(...))`: reinterpret a 32-bit word
as a two's-complement signed value. -/
def fromI32 (n : Nat) : Int :=
  if n % 4294967296 < 2147483648 then ((n % 4294967296 : Nat) : Int)
  else ((n % 4294967296 : Nat) : Int) - 4294967296

/-- Truncation of a rational toward zero: the semantics of Go's
float-to-integer conversion `int32(f)` when the result is representable. -/
def qtrunc (q : ℚ) : Int := if q < 0 then ⌈q⌉ else ⌊q⌋

/-- `las.Point`: one in-memory point.  Coordinates are exact rationals,
`GPSTime` is carried as its IEEE-754 bit pattern (`gpsbits`). -/
structure Point where
  x : ℚ
  y : ℚ
  z : ℚ
  intensity : Nat
  r : Nat
  g : Nat
  b : Nat
  classification : Nat
  gpsbits : Nat
deriving DecidableEq, Inhabited

/-- The per-axis scale factor fixed by the writer: `xScale := 0.001`. -/
def scaleQ : ℚ := 1 / 1000

/-- The writer's coordinate quantization `int32((value - offset) / scale)`:
truncating conversion of the scaled delta (writer.go line 154). -/
def encodeCoord (v off : ℚ) : Int := qtrunc ((v - off) / scaleQ)

/-- Minimum of a coordinate over a point list (the writer's running `minX`
etc., seeded from the first point; `0` for the empty list, which the writer
rejects before using it). -/
def minOf (f : Point → ℚ) : List Point → ℚ
  | [] => 0
  | p :: ps => ps.foldl (fun a q => min a (f q)) (f p)

/-- Maximum of a coordinate over a point list (the writer's running `maxX`). -/
def maxOf (f : Point → ℚ) : List Point → ℚ
  | [] => 0
  | p :: ps => ps.foldl (fun a q => max a (f q)) (f p)

/-- The 34-byte point record the writer emits for each point
(writer.go lines 150-187): scaled X/Y/Z as `int32`, intensity, the fixed
flags byte `0x01`, classification, zero scan-angle/user-data/source-id,
the 8 GPS-time bytes, then R, G, B. -/
def encRecord (mX mY mZ : ℚ) (p : Point) : List Nat :=
  le32 (toU32 (encodeCoord p.x mX)) ++
  le32 (toU32 (encodeCoord p.y mY)) ++
  le32 (toU32 (encodeCoord p.z mZ)) ++
  le16 p.intensity ++
  [1, p.classification % 256, 0, 0] ++
  le16 0 ++
  le64 p.gpsbits ++
  le16 p.r ++ le16 p.g ++ le16 p.b

/-- The 4-byte file signature "LASF". -/
def lasMagic : List Nat := [76, 65, 83, 70]

/-- The 32-byte system identifier text "CompactMapper", zero padded. -/
def sysIdBytes : List Nat :=
  [67, 111, 109, 112, 97, 99, 116, 77, 97, 112, 112, 101, 114] ++ List.replicate 19 0

/-- The 32-byte generating software text "CompactMapper v1.0", zero padded. -/
def genSoftBytes : List Nat :=
  [67, 111, 109, 112, 97, 99, 116, 77, 97, 112, 112, 101, 114, 32, 118, 49, 46, 48] ++
  List.replicate 14 0

/-- The 227-byte LAS 1.2 header the writer builds (writer.go lines 68-142).
Integer fields are byte-faithful; the twelve float64 slots (bytes 131-226)
hold placeholder zeros, their values being carried by the side fields of
`LasFile`.  `day`/`year` stand for the `time.Now()` creation date. -/
def lasHeader (day year n : Nat) : List Nat :=
  lasMagic ++ le16 0 ++ le16 1 ++ List.replicate 16 0 ++ [1, 2] ++
  sysIdBytes ++ genSoftBytes ++ le16 day ++ le16 year ++
  le16 227 ++ le32 227 ++ le32 0 ++ [3] ++ le16 34 ++ le32 n ++ le32 n ++
  List.replicate 16 0 ++ List.replicate 96 0

/-- A LAS artifact: the raw file bytes plus the exact values of the twelve
float64 header fields (whose 8-byte slots inside `bytes` are abstracted). -/
structure LasFile where
  bytes : List Nat
  xScale : ℚ
  yScale : ℚ
  zScale : ℚ
  xOff : ℚ
  yOff : ℚ
  zOff : ℚ
  fminX : ℚ
  fminY : ℚ
  fminZ : ℚ
  fmaxX : ℚ
  fmaxY : ℚ
  fmaxZ : ℚ
deriving DecidableEq, Inhabited

/-- `Writer.Write` (writer.go lines 50-194): rejects an empty point list,
otherwise produces the header followed by one 34-byte format-3 record per
point, in input order; scales are fixed at `0.001` and each axis offset is
the observed minimum. -/
def lasWrite (day year : Nat) (pts : List Point) : Except String LasFile :=
  if pts = [] then .error "no points to write"
  else
    let mX := minOf Point.x pts
    let mY := minOf Point.y pts
    let mZ := minOf Point.z pts
    .ok
      { bytes := lasHeader day year pts.length ++ (pts.map (encRecord mX mY mZ)).flatten
        xScale := scaleQ, yScale := scaleQ, zScale := scaleQ
        xOff := mX, yOff := mY, zOff := mZ
        fminX := mX, fminY := mY, fminZ := mZ
        fmaxX := maxOf Point.x pts, fmaxY := maxOf Point.y pts, fmaxZ := maxOf Point.z pts }

/-- A file-system action of the writer (used to state that a failed encode
performs none at all). -/
inductive FsOp where
  | create
  | writeChunk (bytes : List Nat)
deriving DecidableEq

/-- The sequence of file operations `Writer.Write` performs: the empty-list
check precedes `os.Create`, so an empty encode touches the file system not
at all; otherwise one create, one header write, one write per point. -/
def lasWriteOps (day year : Nat) (pts : List Point) : List FsOp :=
  if pts = [] then []
  else
    let mX := minOf Point.x pts
    let mY := minOf Point.y pts
    let mZ := minOf Point.z pts
    FsOp.create :: FsOp.writeChunk (lasHeader day year pts.length) ::
      pts.map (fun p => FsOp.writeChunk (encRecord mX mY mZ p))

/-- `las.Header`: the parsed header fields (reader.go lines 12-22). -/
structure Header where
  versionMajor : Nat
  versionMinor : Nat
  pointFormat : Nat
  pointCount : Nat
  pointRecordLength : Nat
  hxScale : ℚ
  hyScale : ℚ
  hzScale : ℚ
  hxOff : ℚ
  hyOff : ℚ
  hzOff : ℚ
deriving DecidableEq, Inhabited

/-- `Reader.readHeader` (reader.go lines 54-94): `io.ReadFull` of 227 bytes
(failing on a shorter file), signature check, then field extraction.  The
float64 fields come from the modelled side fields. -/
def readHeader (f : LasFile) : Except String Header :=
  if f.bytes.length < 227 then .error "error reading header"
  else if f.bytes.take 4 ≠ lasMagic then .error "invalid LAS file: wrong signature"
  else .ok
    { versionMajor := f.bytes.getD 24 0
      versionMinor := f.bytes.getD 25 0
      pointFormat := f.bytes.getD 104 0
      pointRecordLength := rd16 (f.bytes.drop 105)
      pointCount := rd32 (f.bytes.drop 107)
      hxScale := f.xScale, hyScale := f.yScale, hzScale := f.zScale
      hxOff := f.xOff, hyOff := f.yOff, hzOff := f.zOff }

/-- Coordinate reconstruction `float64(stored) * scale + offset`
(reader.go lines 133-135). -/
def decodeCoord (n : Nat) (scale off : ℚ) : ℚ := (fromI32 n : ℚ) * scale + off

/-- Decoding of one 26-byte format-2 record (reader.go lines 119-145):
no GPS time is read, so the decoded point keeps the zero value. -/
def decRec2 (h : Header) (c : List Nat) : Point :=
  { x := decodeCoord (rd32 c) h.hxScale h.hxOff
    y := decodeCoord (rd32 (c.drop 4)) h.hyScale h.hyOff
    z := decodeCoord (rd32 (c.drop 8)) h.hzScale h.hzOff
    intensity := rd16 (c.drop 12)
    classification := c.getD 15 0
    r := rd16 (c.drop 20)
    g := rd16 (c.drop 22)
    b := rd16 (c.drop 24)
    gpsbits := 0 }

/-- Decoding of one 34-byte format-3 record (reader.go lines 148-175):
GPS time occupies bytes 20-28, color bytes 28-34. -/
def decRec3 (h : Header) (c : List Nat) : Point :=
  { x := decodeCoord (rd32 c) h.hxScale h.hxOff
    y := decodeCoord (rd32 (c.drop 4)) h.hyScale h.hyOff
    z := decodeCoord (rd32 (c.drop 8)) h.hzScale h.hzOff
    intensity := rd16 (c.drop 12)
    classification := c.getD 15 0
    gpsbits := rd64 (c.drop 20)
    r := rd16 (c.drop 28)
    g := rd16 (c.drop 30)
    b := rd16 (c.drop 32) }

/-- The per-record read loop shared by `readPointsFormat2/3`: reads `n`
records of `size` bytes each from the stream, failing on a short read. -/
def readRecs (size : Nat) (dec : List Nat → Point) : Nat → List Nat → Except String (List Point)
  | 0, _ => .ok []
  | n + 1, bs =>
    if bs.length < size then .error "error reading point"
    else
      match readRecs size dec n (bs.drop size) with
      | .error e => .error e
      | .ok rest => .ok (dec (bs.take size) :: rest)

/-- `Reader.ReadPoints` (reader.go lines 102-116) composed with the header
validation `NewReader` performs: seek to byte 227, dispatch on the header's
point-format-id (2 → 26-byte records, 3 → 34-byte records, otherwise an
unsupported-format error), and read `pointCount` records. -/
def readPoints (f : LasFile) : Except String (List Point) :=
  match readHeader f with
  | .error e => .error e
  | .ok h =>
    if h.pointFormat = 2 then readRecs 26 (decRec2 h) h.pointCount (f.bytes.drop 227)
    else if h.pointFormat = 3 then readRecs 34 (decRec3 h) h.pointCount (f.bytes.drop 227)
    else .error "unsupported point format"

/-- An open reader: the file plus the handle's current byte position. -/
structure ReaderState where
  f : LasFile
  pos : Nat
deriving DecidableEq

/-- `io.ReadFull` on the open handle: reads `k` bytes at the current
position, advancing it; fails when fewer than `k` bytes remain. -/
def readFull (s : ReaderState) (k : Nat) : Option (List Nat) × ReaderState :=
  if s.f.bytes.length < s.pos + k then (none, s)
  else (some ((s.f.bytes.drop s.pos).take k), { s with pos := s.pos + k })

/-- The stateful record loop: like `readRecs` but consuming the handle. -/
def readRecsSt (size : Nat) (dec : List Nat → Point) :
    Nat → ReaderState → Except String (List Point) × ReaderState
  | 0, s => (.ok [], s)
  | n + 1, s =>
    match readFull s size with
    | (none, s1) => (.error "error reading point", s1)
    | (some c, s1) =>
      match readRecsSt size dec n s1 with
      | (.error e, s2) => (.error e, s2)
      | (.ok rest, s2) => (.ok (dec c :: rest), s2)

/-- `Reader.ReadPoints` on an open handle: it first executes
`r.file.Seek(227, 0)` (reader.go line 104), discarding the current
position, then reads records from the fixed point-data offset. -/
def readPointsSt (s : ReaderState) : Except String (List Point) × ReaderState :=
  let s0 : ReaderState := { f := s.f, pos := 227 }
  match readHeader s.f with
  | .error e => (.error e, s0)
  | .ok h =>
    if h.pointFormat = 2 then readRecsSt 26 (decRec2 h) h.pointCount s0
    else if h.pointFormat = 3 then readRecsSt 34 (decRec3 h) h.pointCount s0
    else (.error "unsupported point format", s0)

/-- `converter.determineColor`: tri-state pass-count coloring. -/
def determineColor (passCount targPass : Int) : Nat × Nat × Nat :=
  if passCount < targPass then (65535, 0, 0)
  else if passCount = targPass then (0, 65535, 0)
  else (0, 0, 65535)

/-- Is the byte an ASCII digit (`'0'-'9'`)?  Go time's `isDigit`. -/
def isDigitByte (c : Nat) : Bool := 48 ≤ c && c ≤ 57

/-- Numeric value of an ASCII digit byte. -/
def digitVal (c : Nat) : Nat := c - 48

/-- Go time's `getnum(s, true)` used for the zero-padded layout codes
`"02"`, `"04"`, `"05"`: exactly two digit bytes. -/
def getnum2 : List Nat → Option (Nat × List Nat)
  | c0 :: c1 :: rest =>
    if isDigitByte c0 && isDigitByte c1 then some (digitVal c0 * 10 + digitVal c1, rest)
    else none
  | _ => none

/-- Go time's `getnum(s, false)` used for the hour code `"15"`: one digit,
greedily extended to two when the next byte is also a digit. -/
def getnum1or2 : List Nat → Option (Nat × List Nat)
  | [] => none
  | c0 :: rest =>
    if !isDigitByte c0 then none
    else
      match rest with
      | c1 :: rest2 =>
        if isDigitByte c1 then some (digitVal c0 * 10 + digitVal c1, rest2)
        else some (digitVal c0, rest)
      | [] => some (digitVal c0, [])

/-- Go time's `stdLongYear` (`"2006"`): exactly four digit bytes. -/
def getYear4 : List Nat → Option (Nat × List Nat)
  | c0 :: c1 :: c2 :: c3 :: rest =>
    if isDigitByte c0 && isDigitByte c1 && isDigitByte c2 && isDigitByte c3 then
      some (((digitVal c0 * 10 + digitVal c1) * 10 + digitVal c2) * 10 + digitVal c3, rest)
    else none
  | _ => none

/-- Match one literal layout byte. -/
def expectByte (c : Nat) : List Nat → Option (List Nat)
  | c0 :: rest => if c0 = c then some rest else none
  | [] => none

/-- Go time's byte comparison `match`: equal, or both ASCII letters
differing only in case. -/
def eqFold (a b : Nat) : Bool :=
  a = b || (let a2 := a ||| 32; let b2 := b ||| 32; a2 = b2 && 97 ≤ a2 && a2 ≤ 122)

/-- The short month names `"Jan"` … `"Dec"` of Go's `time` package. -/
def monthNames : List (List Nat) :=
  [asciiOf ['J','a','n'], asciiOf ['F','e','b'], asciiOf ['M','a','r'],
   asciiOf ['A','p','r'], asciiOf ['M','a','y'], asciiOf ['J','u','n'],
   asciiOf ['J','u','l'], asciiOf ['A','u','g'], asciiOf ['S','e','p'],
   asciiOf ['O','c','t'], asciiOf ['N','o','v'], asciiOf ['D','e','c']]

/-- Does the input start with the given name, compared case-insensitively
(Go time's `match` over a table entry)? -/
def matchCI : List Nat → List Nat → Bool
  | [], _ => true
  | _ :: _, [] => false
  | a :: as, b :: bs => eqFold a b && matchCI as bs

/-- Go time's `lookup`: first table entry that is a case-insensitive
prefix of the input; yields its 1-based index and the rest of the input. -/
def lookupMonthAux : Nat → List (List Nat) → List Nat → Option (Nat × List Nat)
  | _, [], _ => none
  | i, nm :: rest, s =>
    if matchCI nm s then some (i, s.drop nm.length) else lookupMonthAux (i + 1) rest s

/-- Month-name parsing for layout code `"Jan"`. -/
def lookupMonth (s : List Nat) : Option (Nat × List Nat) := lookupMonthAux 1 monthNames s

/-- Consume a maximal run of digit bytes, returning its length and the rest. -/
def takeDigits : List Nat → Nat × List Nat
  | [] => (0, [])
  | c :: rest =>
    if isDigitByte c then
      let p := takeDigits rest
      (p.1 + 1, p.2)
    else (0, c :: rest)

/-- Go time's parse step for the layout code `".999"`: an OPTIONAL
fractional-seconds field — consumed only when a `'.'` or `','` followed by
at least one digit is present, and then it takes a maximal digit run of any
length; otherwise the input is left untouched and no error is raised. -/
def parseFrac (s : List Nat) : List Nat :=
  match s with
  | sep :: d :: rest =>
    if (sep = 46 || sep = 44) && isDigitByte d then (takeDigits (d :: rest)).2
    else s
  | _ => s

/-- Leap-year rule of Go's `time.daysIn`. -/
def isLeap (y : Nat) : Bool := y % 4 = 0 && (y % 100 ≠ 0 || y % 400 = 0)

/-- Days in a month (Go's `daysIn`), used by `time.Parse` to range-check
the day of month. -/
def daysIn (m y : Nat) : Nat :=
  if m = 2 then (if isLeap y then 29 else 28)
  else if m = 4 || m = 6 || m = 9 || m = 11 then 30
  else 31

/-- Two-digit zero-padded decimal rendering (Go `Format` code `"01"`/`"02"`). -/
def pad2 (n : Nat) : List Nat := [48 + n / 10 % 10, 48 + n % 10]

/-- Four-digit zero-padded decimal rendering (Go `Format` code `"2006"`). -/
def pad4 (n : Nat) : List Nat :=
  [48 + n / 1000 % 10, 48 + n / 100 % 10, 48 + n / 10 % 10, 48 + n % 10]

/-- The rendered date `t.Format("2006-01-02")`. -/
def dateOut (y m d : Nat) : List Nat := pad4 y ++ [45] ++ pad2 m ++ [45] ++ pad2 d

/-- `sorter.parseDate`: `time.Parse("2006/Jan/02 15:04:05.999", s)` followed
by `t.Format("2006-01-02")`, step for step: four-digit year, literal `'/'`,
case-insensitive three-letter month, literal `'/'`, two-digit day, literal
`' '`, one-or-two-digit hour, `':'`, two-digit minute, `':'`, two-digit
second, optional fraction, no trailing bytes, then the range checks
`time.Parse` applies (hour < 24, minute < 60, second < 60, day within the
month). -/
def parseDate (s : List Nat) : Option (List Nat) :=
  match getYear4 s with
  | none => none
  | some (year, s1) =>
  match expectByte 47 s1 with
  | none => none
  | some s2 =>
  match lookupMonth s2 with
  | none => none
  | some (month, s3) =>
  match expectByte 47 s3 with
  | none => none
  | some s4 =>
  match getnum2 s4 with
  | none => none
  | some (day, s5) =>
  match expectByte 32 s5 with
  | none => none
  | some s6 =>
  match getnum1or2 s6 with
  | none => none
  | some (hour, s7) =>
  match expectByte 58 s7 with
  | none => none
  | some s8 =>
  match getnum2 s8 with
  | none => none
  | some (minute, s9) =>
  match expectByte 58 s9 with
  | none => none
  | some s10 =>
  match getnum2 s10 with
  | none => none
  | some (second, s11) =>
  let s12 := parseFrac s11
  if s12 ≠ [] then none
  else if 24 ≤ hour then none
  else if 60 ≤ minute then none
  else if 60 ≤ second then none
  else if day < 1 ∨ daysIn month year < day then none
  else some (dateOut year month day)

/-- The sentinel `"no_amp"`. -/
def noAmp : List Nat := asciiOf ['n','o','_','a','m','p']

/-- `sorter.normalizeAmp`: empty or `"?"` maps to the sentinel; otherwise
every `'.'` byte is removed (`strings.ReplaceAll`) and the result is cut to
its first three bytes when longer. -/
def normalizeAmp (amp : List Nat) : List Nat :=
  if amp = [] ∨ amp = asciiOf ['?'] then noAmp
  else
    let normalized := amp.filter (fun c => c ≠ 46)
    if 3 < normalized.length then normalized.take 3 else normalized

/-- The characters `< > : " / \ | ? *` removed from artifact names. -/
def badChars : List Nat := [60, 62, 58, 34, 47, 92, 124, 63, 42]

/-- `sorter.sanitizeFilename`: strip (not replace) the invalid characters. -/
def sanitizeFilename (s : List Nat) : List Nat := s.filter (fun c => !(badChars.contains c))

/-- `sorter.generateFilename`: `{date}design{design}amp{amp}.csv`, with the
sentinel rendering no `amp` token at all. -/
def generateFilename (date design amp : List Nat) : List Nat :=
  if amp = noAmp then
    date ++ asciiOf ['d','e','s','i','g','n'] ++ design ++ asciiOf ['a','m','p'] ++
      asciiOf ['.','c','s','v']
  else
    date ++ asciiOf ['d','e','s','i','g','n'] ++ design ++ asciiOf ['a','m','p'] ++ amp ++
      asciiOf ['.','c','s','v']

/-- `sorter.GroupKey`. -/
structure GroupKey where
  date : List Nat
  designName : List Nat
  amp : List Nat
deriving DecidableEq, Inhabited

/-- The artifact file name a key is written under (generate + sanitize,
SortCSV lines 176-178). -/
def artifactName (k : GroupKey) : List Nat :=
  sanitizeFilename (generateFilename k.date k.designName k.amp)

/-- One input record, projected to the three key columns plus its payload. -/
structure Row where
  time : List Nat
  design : List Nat
  amp : List Nat
  payload : List (List Nat)
deriving DecidableEq, Inhabited

/-- Key derivation of `processChunk` (part_001 lines 226-247): parse the
date (failing rows are skipped in skip mode), pass the design through,
normalize the amplitude. -/
def keyOf (r : Row) : Option GroupKey :=
  match parseDate r.time with
  | none => none
  | some d => some { date := d, designName := r.design, amp := normalizeAmp r.amp }

/-- `groups[key] = append(groups[key], row)` on an association list that
keeps one entry per key (the model of the Go map). -/
def groupsAdd (gs : List (GroupKey × List Row)) (k : GroupKey) (r : Row) :
    List (GroupKey × List Row) :=
  match gs with
  | [] => [(k, [r])]
  | (k0, rs) :: rest =>
    if k0 = k then (k0, rs ++ [r]) :: rest else (k0, rs) :: groupsAdd rest k r

/-- `sorter.processChunk` in skip mode: rows whose date fails to parse are
skipped, the rest are appended to their key's bucket in input order. -/
def processChunk (chunk : List Row) (gs : List (GroupKey × List Row)) :
    List (GroupKey × List Row) :=
  match chunk with
  | [] => gs
  | r :: rest =>
    match keyOf r with
    | none => processChunk rest gs
    | some k => processChunk rest (groupsAdd gs k r)

/-- The grouping a whole `SortCSV` run computes over its row sequence. -/
def sortGroups (rows : List Row) : List (GroupKey × List Row) := processChunk rows []

/-- The same run with the rows delivered in chunks (`ChunkSize` batches):
each chunk is folded into the accumulated groups. -/
def sortGroupsChunked (chunks : List (List Row)) : List (GroupKey × List Row) :=
  chunks.foldl (fun gs c => processChunk c gs) []

/-- Lookup of a key's bucket in the grouping. -/
def lookupG (k : GroupKey) : List (GroupKey × List Row) → Option (List Row)
  | [] => none
  | (k0, rs) :: rest => if k0 = k then some rs else lookupG k rest

/-- Append rows to the file of the given name, creating it when absent
(the `O_APPEND` open of SortCSV lines 180-215, keyed by file name). -/
def filesAdd (fs : List (List Nat × List Row)) (name : List Nat) (rs : List Row) :
    List (List Nat × List Row) :=
  match fs with
  | [] => [(name, rs)]
  | (n0, rs0) :: rest =>
    if n0 = name then (n0, rs0 ++ rs) :: rest else (n0, rs0) :: filesAdd rest name rs

/-- The write phase of `SortCSV`: each group is appended, as one block, to
the file named by its key; distinct keys whose sanitized names coincide end
up appended to the same file. -/
def writeFiles (gs : List (GroupKey × List Row)) : List (List Nat × List Row) :=
  gs.foldl (fun fs g => filesAdd fs (artifactName g.1) g.2) []

/-- Lookup of a file's content by name. -/
def lookupF (name : List Nat) : List (List Nat × List Row) → Option (List Row)
  | [] => none
  | (n0, rs) :: rest => if n0 = name then some rs else lookupF name rest

/-! ### Byte-level helper lemmas -/

theorem toU32_lt (i : Int) : toU32 i < 4294967296 := by
  unfold toU32
  omega

theorem fromI32_toU32 (i : Int) (h1 : -2147483648 ≤ i) (h2 : i < 2147483648) :
    fromI32 (toU32 i) = i := by
  unfold fromI32 toU32
  omega

theorem rd16_le16 (n : Nat) (t : List Nat) (h : n < 65536) : rd16 (le16 n ++ t) = n := by
  simp [rd16, le16]
  omega

theorem rd32_le32 (n : Nat) (t : List Nat) (h : n < 4294967296) : rd32 (le32 n ++ t) = n := by
  simp [rd32, le32]
  omega

theorem rd64_le64 (n : Nat) (t : List Nat) (h : n < 18446744073709551616) :
    rd64 (le64 n ++ t) = n := by
  simp [rd64, le64, rd32, le32]
  omega

theorem le16_length (n : Nat) : (le16 n).length = 2 := rfl

theorem le32_length (n : Nat) : (le32 n).length = 4 := rfl

theorem le64_length (n : Nat) : (le64 n).length = 8 := rfl

theorem encRecord_length (mX mY mZ : ℚ) (p : Point) : (encRecord mX mY mZ p).length = 34 := by
  simp [encRecord, le16, le32, le64]

set_option maxRecDepth 4000 in
theorem lasHeader_length (day year n : Nat) : (lasHeader day year n).length = 227 := by
  simp [lasHeader, lasMagic, le16, le32, sysIdBytes, genSoftBytes, asciiOf]

/-! ### Coordinate quantization lemmas -/

theorem qtrunc_of_nonneg {q : ℚ} (h : 0 ≤ q) : qtrunc q = ⌊q⌋ := by
  unfold qtrunc
  rw [if_neg (not_lt.mpr h)]

theorem encodeCoord_nonneg {x m : ℚ} (hm : m ≤ x) : 0 ≤ encodeCoord x m := by
  unfold encodeCoord
  have h0 : (0 : ℚ) ≤ (x - m) / scaleQ := by
    apply div_nonneg (by linarith)
    norm_num [scaleQ]
  rw [qtrunc_of_nonneg h0]
  exact Int.floor_nonneg.mpr h0

theorem encodeCoord_lt {x m : ℚ} (hm : m ≤ x) (hr : (x - m) / scaleQ < 2147483648) :
    encodeCoord x m < 2147483648 := by
  unfold encodeCoord
  have h0 : (0 : ℚ) ≤ (x - m) / scaleQ := by
    apply div_nonneg (by linarith)
    norm_num [scaleQ]
  rw [qtrunc_of_nonneg h0]
  rw [Int.floor_lt]
  push_cast
  exact hr

/-- The round-trip quantization bound: decoding the truncated scaled delta
recovers the coordinate to within one scale unit. -/
theorem quant_bound (x m : ℚ) (hm : m ≤ x) :
    |(encodeCoord x m : ℚ) * scaleQ + m - x| ≤ scaleQ := by
  unfold encodeCoord
  have hs : (0 : ℚ) < scaleQ := by norm_num [scaleQ]
  have h0 : (0 : ℚ) ≤ (x - m) / scaleQ := div_nonneg (by linarith) (le_of_lt hs)
  rw [qtrunc_of_nonneg h0]
  set t : ℚ := (x - m) / scaleQ with ht
  have hx : x = t * scaleQ + m := by
    field_simp [ht]
  have hfl : (⌊t⌋ : ℚ) ≤ t := Int.floor_le t
  have hfu : t < (⌊t⌋ : ℚ) + 1 := Int.lt_floor_add_one t
  rw [abs_le]
  constructor
  · nlinarith
  · nlinarith

theorem minOf_le (f : Point → ℚ) (pts : List Point) (p : Point) (hp : p ∈ pts) :
    minOf f pts ≤ f p := by
  have key : ∀ (l : List Point) (a : ℚ),
      l.foldl (fun x q => min x (f q)) a ≤ a ∧
      ∀ q ∈ l, l.foldl (fun x q => min x (f q)) a ≤ f q := by
    intro l
    induction l with
    | nil => simp
    | cons hd tl ih =>
      intro a
      refine ⟨le_trans (ih (min a (f hd))).1 (min_le_left _ _), ?_⟩
      intro q hq
      rcases List.mem_cons.mp hq with h | h
      · subst h
        exact le_trans (ih (min a (f q))).1 (min_le_right _ _)
      · exact (ih (min a (f hd))).2 q h
  match pts, hp with
  | p0 :: rest, hp =>
    unfold minOf
    rcases List.mem_cons.mp hp with h | h
    · subst h
      exact (key rest (f p)).1
    · exact (key rest (f p0)).2 p h

/-! ### Record-loop lemmas -/

theorem readRecs_flatten (size : Nat) (dec : List Nat → Point)
    (recs : List (List Nat)) (rest : List Nat)
    (hlen : ∀ r ∈ recs, r.length = size) :
    readRecs size dec recs.length (recs.flatten ++ rest) = .ok (recs.map dec) := by
  induction recs generalizing rest with
  | nil => simp [readRecs]
  | cons r rs ih =>
    have hr : r.length = size := hlen r (List.mem_cons_self r rs)
    have hrs : ∀ q ∈ rs, q.length = size := fun q hq => hlen q (List.mem_cons_of_mem r hq)
    simp only [List.length_cons, List.flatten_cons, List.map_cons, readRecs, List.append_assoc]
    have hge : ¬ (r ++ (rs.flatten ++ rest)).length < size := by
      simp [List.length_append, hr]
    rw [if_neg hge]
    have htake : (r ++ (rs.flatten ++ rest)).take size = r := by
      rw [← hr, List.take_left]
    have hdrop : (r ++ (rs.flatten ++ rest)).drop size = rs.flatten ++ rest := by
      rw [← hr, List.drop_left]
    rw [hdrop, ih rest hrs, htake]

theorem readRecs_short (size : Nat) (dec : List Nat → Point) :
    ∀ (n : Nat) (bs : List Nat), bs.length < size * n →
    ∃ e, readRecs size dec n bs = .error e := by
  intro n
  induction n with
  | zero => intro bs h; omega
  | succ m ih =>
    intro bs h
    by_cases hb : bs.length < size
    · exact ⟨"error reading point", by simp [readRecs, hb]⟩
    · have hdrop : (bs.drop size).length < size * m := by
        simp only [List.length_drop]
        have : size * (m + 1) = size * m + size := by ring
        omega
      obtain ⟨e, he⟩ := ih (bs.drop size) hdrop
      refine ⟨e, ?_⟩
      simp [readRecs, hb, he]

theorem readRecs_ok (size : Nat) (dec : List Nat → Point) :
    ∀ (n : Nat) (bs : List Nat), size * n ≤ bs.length →
    ∃ outs, readRecs size dec n bs = .ok outs ∧ outs.length = n ∧
      ∀ i, i < n → outs.getD i default = dec ((bs.drop (size * i)).take size) := by
  intro n
  induction n with
  | zero =>
    intro bs _
    exact ⟨[], rfl, rfl, by omega⟩
  | succ m ih =>
    intro bs h
    have hb : ¬ bs.length < size := by
      have : size * (m + 1) = size * m + size := by ring
      omega
    have hrec : size * m ≤ (bs.drop size).length := by
      simp only [List.length_drop]
      have : size * (m + 1) = size * m + size := by ring
      omega
    obtain ⟨rest, hre, hrl, hri⟩ := ih (bs.drop size) hrec
    refine ⟨dec (bs.take size) :: rest, ?_, by simp [hrl], ?_⟩
    · simp [readRecs, hb, hre]
    · intro i hi
      match i with
      | 0 => simp
      | j + 1 =>
        have := hri j (by omega)
        simp only [List.getD_cons_succ, this, List.drop_drop]
        congr 2
        ring_nf

/-! ### Facts about the written header bytes -/

set_option maxRecDepth 8000 in
theorem lasHeader_take4 (d y n : Nat) : (lasHeader d y n).take 4 = lasMagic := by
  simp [lasHeader, lasMagic, le16, le32, sysIdBytes, genSoftBytes]

set_option maxRecDepth 8000 in
theorem lasHeader_getD24 (d y n : Nat) : (lasHeader d y n).getD 24 0 = 1 := by
  simp [lasHeader, lasMagic, le16, le32, sysIdBytes, genSoftBytes]

set_option maxRecDepth 8000 in
theorem lasHeader_getD25 (d y n : Nat) : (lasHeader d y n).getD 25 0 = 2 := by
  simp [lasHeader, lasMagic, le16, le32, sysIdBytes, genSoftBytes]

set_option maxRecDepth 8000 in
theorem lasHeader_getD104 (d y n : Nat) : (lasHeader d y n).getD 104 0 = 3 := by
  simp [lasHeader, lasMagic, le16, le32, sysIdBytes, genSoftBytes]

set_option maxRecDepth 8000 in
theorem lasHeader_drop105 (d y n : Nat) :
    (lasHeader d y n).drop 105 =
      [34, 0] ++ (le32 n ++ (le32 n ++ (List.replicate 16 0 ++ List.replicate 96 0))) := by
  simp [lasHeader, lasMagic, le16, le32, sysIdBytes, genSoftBytes]

theorem lasHeader_drop107 (d y n : Nat) :
    (lasHeader d y n).drop 107 = le32 n ++ (le32 n ++ (List.replicate 16 0 ++ List.replicate 96 0)) := by
  have h : (107 : Nat) = 105 + 2 := rfl
  rw [h, ← List.drop_drop, lasHeader_drop105]
  rfl

/-- The header fields `readHeader` extracts from a file `lasWrite` produced. -/
theorem readHeader_write (day year : Nat) (pts : List Point) (hne : pts ≠ [])
    (hc : pts.length < 4294967296) :
    ∃ f, lasWrite day year pts = .ok f ∧
      f.bytes = lasHeader day year pts.length ++
        (pts.map (encRecord (minOf Point.x pts) (minOf Point.y pts) (minOf Point.z pts))).flatten ∧
      f.xScale = scaleQ ∧ f.yScale = scaleQ ∧ f.zScale = scaleQ ∧
      f.xOff = minOf Point.x pts ∧ f.yOff = minOf Point.y pts ∧ f.zOff = minOf Point.z pts ∧
      readHeader f = .ok
        { versionMajor := 1, versionMinor := 2, pointFormat := 3,
          pointCount := pts.length, pointRecordLength := 34,
          hxScale := scaleQ, hyScale := scaleQ, hzScale := scaleQ,
          hxOff := minOf Point.x pts, hyOff := minOf Point.y pts, hzOff := minOf Point.z pts } := by
  have hw : lasWrite day year pts = .ok
      { bytes := lasHeader day year pts.length ++
          (pts.map (encRecord (minOf Point.x pts) (minOf Point.y pts) (minOf Point.z pts))).flatten
        xScale := scaleQ, yScale := scaleQ, zScale := scaleQ
        xOff := minOf Point.x pts, yOff := minOf Point.y pts, zOff := minOf Point.z pts
        fminX := minOf Point.x pts, fminY := minOf Point.y pts, fminZ := minOf Point.z pts
        fmaxX := maxOf Point.x pts, fmaxY := maxOf Point.y pts, fmaxZ := maxOf Point.z pts } := by
    unfold lasWrite
    rw [if_neg hne]
  refine ⟨_, hw, rfl, rfl, rfl, rfl, rfl, rfl, rfl, ?_⟩
  · set hdr := lasHeader day year pts.length with hh
    set body := (pts.map (encRecord (minOf Point.x pts) (minOf Point.y pts) (minOf Point.z pts))).flatten with hb
    have hlen : hdr.length = 227 := lasHeader_length day year pts.length
    have hge : ¬ (hdr ++ body).length < 227 := by
      simp [List.length_append, hlen]
    have htk : (hdr ++ body).take 4 = lasMagic := by
      have h4 : (4 : Nat) ≤ hdr.length := by omega
      rw [List.take_append_of_le_length h4, hh, lasHeader_take4]
    unfold readHeader
    simp only [hge, if_false, htk, ite_not]
    rw [if_pos trivial]
    have hg24 : (hdr ++ body).getD 24 0 = 1 := by
      rw [List.getD_append _ _ _ _ (by omega), hh, lasHeader_getD24]
    have hg25 : (hdr ++ body).getD 25 0 = 2 := by
      rw [List.getD_append _ _ _ _ (by omega), hh, lasHeader_getD25]
    have hg104 : (hdr ++ body).getD 104 0 = 3 := by
      rw [List.getD_append _ _ _ _ (by omega), hh, lasHeader_getD104]
    have hd105 : rd16 ((hdr ++ body).drop 105) = 34 := by
      rw [List.drop_append_of_le_length (by omega), hh, lasHeader_drop105]
      simp [rd16]
    have hd107 : rd32 ((hdr ++ body).drop 107) = pts.length := by
      rw [List.drop_append_of_le_length (by omega), hh, lasHeader_drop107, ← List.append_assoc]
      rw [List.append_assoc (le32 pts.length)]
      exact rd32_le32 pts.length _ hc
    rw [hg24, hg25, hg104, hd105, hd107]

theorem bytes4_reassemble (n : Nat) (h : n < 4294967296) :
    n % 256 + 256 * (n / 256 % 256) + 65536 * (n / 65536 % 256) +
      16777216 * (n / 16777216 % 256) = n := by
  have e1 : n / 65536 = n / 256 / 256 := by rw [Nat.div_div_eq_div_mul]
  have e2 : n / 16777216 = n / 65536 / 256 := by
    rw [e1, Nat.div_div_eq_div_mul, Nat.div_div_eq_div_mul]
  omega

theorem bytes8_reassemble (n : Nat) (h : n < 18446744073709551616) :
    n % 4294967296 % 256 + 256 * (n % 4294967296 / 256 % 256) +
        65536 * (n % 4294967296 / 65536 % 256) +
      16777216 * (n % 4294967296 / 16777216 % 256) +
      4294967296 *
        (n / 4294967296 % 256 + 256 * (n / 4294967296 / 256 % 256) +
            65536 * (n / 4294967296 / 65536 % 256) +
          16777216 * (n / 4294967296 / 16777216 % 256)) = n := by
  rw [bytes4_reassemble (n % 4294967296) (by omega),
      bytes4_reassemble (n / 4294967296) (by omega)]
  omega

/-- Decoding a written format-3 record recovers every stored field: the
coordinates come back as the quantized integers rescaled, the other fields
bit-exactly. -/
theorem decRec3_encRecord (h : Header) (mX mY mZ : ℚ) (p : Point)
    (hi : p.intensity < 65536) (hr : p.r < 65536) (hg : p.g < 65536) (hb : p.b < 65536)
    (hc : p.classification < 256) (hgps : p.gpsbits < 18446744073709551616)
    (hx1 : -2147483648 ≤ encodeCoord p.x mX) (hx2 : encodeCoord p.x mX < 2147483648)
    (hy1 : -2147483648 ≤ encodeCoord p.y mY) (hy2 : encodeCoord p.y mY < 2147483648)
    (hz1 : -2147483648 ≤ encodeCoord p.z mZ) (hz2 : encodeCoord p.z mZ < 2147483648) :
    decRec3 h (encRecord mX mY mZ p) =
      { x := (encodeCoord p.x mX : ℚ) * h.hxScale + h.hxOff
        y := (encodeCoord p.y mY : ℚ) * h.hyScale + h.hyOff
        z := (encodeCoord p.z mZ : ℚ) * h.hzScale + h.hzOff
        intensity := p.intensity, r := p.r, g := p.g, b := p.b
        classification := p.classification, gpsbits := p.gpsbits } := by
  simp [encRecord, le16, le32, le64, decRec3, rd16, rd32, rd64, decodeCoord]
  refine ⟨Or.inl ?_, Or.inl ?_, Or.inl ?_, by omega, by omega, by omega, by omega, hc, ?_⟩
  · rw [bytes4_reassemble _ (toU32_lt _)]
    exact fromI32_toU32 _ hx1 hx2
  · rw [bytes4_reassemble _ (toU32_lt _)]
    exact fromI32_toU32 _ hy1 hy2
  · rw [bytes4_reassemble _ (toU32_lt _)]
    exact fromI32_toU32 _ hz1 hz2
  · exact bytes8_reassemble _ hgps

theorem readPoints_fmt2 (f : LasFile) (H : Header) (hrh : readHeader f = .ok H)
    (h2 : H.pointFormat = 2) :
    readPoints f = readRecs 26 (decRec2 H) H.pointCount (f.bytes.drop 227) := by
  unfold readPoints
  simp only [hrh]
  rw [if_pos h2]

theorem readPoints_fmt3 (f : LasFile) (H : Header) (hrh : readHeader f = .ok H)
    (h3 : H.pointFormat = 3) :
    readPoints f = readRecs 34 (decRec3 H) H.pointCount (f.bytes.drop 227) := by
  unfold readPoints
  simp only [hrh]
  rw [if_neg (by omega), if_pos h3]

theorem readPoints_unsupported (f : LasFile) (H : Header) (hrh : readHeader f = .ok H)
    (h2 : H.pointFormat ≠ 2) (h3 : H.pointFormat ≠ 3) :
    readPoints f = .error "unsupported point format" := by
  unfold readPoints
  simp only [hrh]
  rw [if_neg h2, if_neg h3]

/-! ### Claim theorems -/

/-- C1: encoding a non-empty sequence of N points and decoding the artifact
yields exactly N points in order; X/Y/Z each differ from the originals by at
most one scale unit (0.001), R/G/B/intensity/classification are bit-exact,
and the stored GPS-time bit pattern is recovered exactly (hence the decoded
float64 timestamp equals the original to within representation error).
Stated under the machine-representability side conditions of the Go code:
the point count fits `uint32`, the fields fit their stored widths, and each
scaled coordinate delta fits `int32` (Go's float-to-int conversion is
implementation-defined outside that range). -/
theorem c1_encode_decode_round_trip (day year : Nat) (pts : List Point)
    (hne : pts ≠ [])
    (hcount : pts.length < 4294967296)
    (hwf : ∀ p ∈ pts, p.intensity < 65536 ∧ p.r < 65536 ∧ p.g < 65536 ∧ p.b < 65536 ∧
      p.classification < 256 ∧ p.gpsbits < 18446744073709551616)
    (hrange : ∀ p ∈ pts, (p.x - minOf Point.x pts) / scaleQ < 2147483648 ∧
      (p.y - minOf Point.y pts) / scaleQ < 2147483648 ∧
      (p.z - minOf Point.z pts) / scaleQ < 2147483648) :
    ∃ f outs, lasWrite day year pts = .ok f ∧ readPoints f = .ok outs ∧
      outs.length = pts.length ∧
      ∀ i, i < pts.length →
        |(outs.getD i default).x - (pts.getD i default).x| ≤ scaleQ ∧
        |(outs.getD i default).y - (pts.getD i default).y| ≤ scaleQ ∧
        |(outs.getD i default).z - (pts.getD i default).z| ≤ scaleQ ∧
        (outs.getD i default).intensity = (pts.getD i default).intensity ∧
        (outs.getD i default).r = (pts.getD i default).r ∧
        (outs.getD i default).g = (pts.getD i default).g ∧
        (outs.getD i default).b = (pts.getD i default).b ∧
        (outs.getD i default).classification = (pts.getD i default).classification ∧
        (outs.getD i default).gpsbits = (pts.getD i default).gpsbits := by
  obtain ⟨f, hw, hbytes, hxs, hys, hzs, hxo, hyo, hzo, hrh⟩ :=
    readHeader_write day year pts hne hcount
  set mX := minOf Point.x pts with hmX
  set mY := minOf Point.y pts with hmY
  set mZ := minOf Point.z pts with hmZ
  set H : Header :=
    { versionMajor := 1, versionMinor := 2, pointFormat := 3,
      pointCount := pts.length, pointRecordLength := 34,
      hxScale := scaleQ, hyScale := scaleQ, hzScale := scaleQ,
      hxOff := mX, hyOff := mY, hzOff := mZ } with hH
  have hdrop : f.bytes.drop 227 = (pts.map (encRecord mX mY mZ)).flatten := by
    rw [hbytes, ← lasHeader_length day year pts.length, List.drop_left]
  have hrp : readPoints f = .ok ((pts.map (encRecord mX mY mZ)).map (decRec3 H)) := by
    rw [readPoints_fmt3 f H hrh rfl, hdrop]
    have hcnt : H.pointCount = (pts.map (encRecord mX mY mZ)).length := by
      simp [hH]
    rw [hcnt, ← List.append_nil (pts.map (encRecord mX mY mZ)).flatten]
    exact readRecs_flatten 34 (decRec3 H) (pts.map (encRecord mX mY mZ)) []
      (by intro r hr; obtain ⟨p, _, hpr⟩ := List.mem_map.mp hr; rw [← hpr]; exact encRecord_length mX mY mZ p)
  refine ⟨f, (pts.map (encRecord mX mY mZ)).map (decRec3 H), hw, hrp, by simp, ?_⟩
  intro i hi
  have hpm : pts.getD i default ∈ pts := by
    rw [List.getD_eq_getElem _ default hi]
    exact List.getElem_mem hi
  set p := pts.getD i default with hp
  have houts : ((pts.map (encRecord mX mY mZ)).map (decRec3 H)).getD i default =
      decRec3 H (encRecord mX mY mZ p) := by
    rw [List.getD_eq_getElem _ default (by simp [hi]), hp, List.getD_eq_getElem _ default hi]
    simp
  obtain ⟨hwi, hwr, hwg, hwb, hwc, hwgps⟩ := hwf p hpm
  obtain ⟨hrx, hry, hrz⟩ := hrange p hpm
  have hmx : mX ≤ p.x := minOf_le Point.x pts p hpm
  have hmy : mY ≤ p.y := minOf_le Point.y pts p hpm
  have hmz : mZ ≤ p.z := minOf_le Point.z pts p hpm
  have hx1 : -2147483648 ≤ encodeCoord p.x mX :=
    le_trans (by norm_num) (encodeCoord_nonneg hmx)
  have hy1 : -2147483648 ≤ encodeCoord p.y mY :=
    le_trans (by norm_num) (encodeCoord_nonneg hmy)
  have hz1 : -2147483648 ≤ encodeCoord p.z mZ :=
    le_trans (by norm_num) (encodeCoord_nonneg hmz)
  have hx2 : encodeCoord p.x mX < 2147483648 := encodeCoord_lt hmx hrx
  have hy2 : encodeCoord p.y mY < 2147483648 := encodeCoord_lt hmy hry
  have hz2 : encodeCoord p.z mZ < 2147483648 := encodeCoord_lt hmz hrz
  rw [houts, decRec3_encRecord H mX mY mZ p hwi hwr hwg hwb hwc hwgps hx1 hx2 hy1 hy2 hz1 hz2]
  refine ⟨?_, ?_, ?_, rfl, rfl, rfl, rfl, rfl, rfl⟩
  · exact quant_bound p.x mX hmx
  · exact quant_bound p.y mY hmy
  · exact quant_bound p.z mZ hmz

/-- A concrete point used by the witnesses. -/
def wpt : Point := { x := 1, y := 2, z := 3, intensity := 7, r := 65535, g := 0, b := 0,
                     classification := 1, gpsbits := 123 }

/-- A concrete point carrying no timestamp (GPS-time bit pattern zero). -/
def wptNoTs : Point := { x := 1, y := 2, z := 3, intensity := 0, r := 65535, g := 0, b := 0,
                         classification := 1, gpsbits := 0 }

/-- Witness for C1: the round-trip theorem applied to a concrete
one-point sequence. -/
theorem c1_encode_decode_round_trip_witness :
    ∃ f outs, lasWrite 0 0 [wpt] = .ok f ∧ readPoints f = .ok outs ∧
      outs.length = [wpt].length ∧
      ∀ i, i < [wpt].length →
        |(outs.getD i default).x - ([wpt].getD i default).x| ≤ scaleQ ∧
        |(outs.getD i default).y - ([wpt].getD i default).y| ≤ scaleQ ∧
        |(outs.getD i default).z - ([wpt].getD i default).z| ≤ scaleQ ∧
        (outs.getD i default).intensity = ([wpt].getD i default).intensity ∧
        (outs.getD i default).r = ([wpt].getD i default).r ∧
        (outs.getD i default).g = ([wpt].getD i default).g ∧
        (outs.getD i default).b = ([wpt].getD i default).b ∧
        (outs.getD i default).classification = ([wpt].getD i default).classification ∧
        (outs.getD i default).gpsbits = ([wpt].getD i default).gpsbits :=
  c1_encode_decode_round_trip 0 0 [wpt] (by simp) (by simp)
    (by intro p hp; simp only [List.mem_singleton] at hp; subst hp; norm_num [wpt])
    (by intro p hp; simp only [List.mem_singleton] at hp; subst hp;
        norm_num [wpt, minOf, scaleQ])

/-- Every record the writer emits has uniform size, so dropping `size * i`
bytes of the flattened record region lands at record `i`. -/
theorem flatten_drop_uniform (size : Nat) (recs : List (List Nat))
    (h : ∀ r ∈ recs, r.length = size) :
    ∀ i, recs.flatten.drop (size * i) = (recs.drop i).flatten := by
  intro i
  induction i generalizing recs with
  | zero => simp
  | succ j ih =>
    match recs with
    | [] => simp
    | r :: rs =>
      have hr : r.length = size := h r (List.mem_cons_self r rs)
      have hrs : ∀ q ∈ rs, q.length = size := fun q hq => h q (List.mem_cons_of_mem r hq)
      have hstep : (size * (j + 1)) = size + size * j := by ring
      simp only [List.flatten_cons, hstep, ← List.drop_drop, List.drop_succ_cons]
      rw [show List.drop size (r ++ rs.flatten) = rs.flatten by rw [← hr, List.drop_left]]
      exact ih rs hrs

/-- The spec's words for the C2 coordinate mapping: round to nearest, then
truncate toward zero.  Rounding already yields an integer, so the
truncation step is the identity and this is rounding to nearest. -/
def specRoundCoord (v off : ℚ) : Int := round ((v - off) / scaleQ)

/-- C2 counterexample: at value `0.0015` with offset `0` the encoder stores
`1` (plain truncating conversion of `1.5`), while the claimed
round-then-truncate formula yields `2`: the claim's formula disagrees with
the code at this input. -/
theorem c2_counterexample :
    encodeCoord (3 / 2000 : ℚ) 0 = 1 ∧ specRoundCoord (3 / 2000 : ℚ) 0 = 2 ∧
      encodeCoord (3 / 2000 : ℚ) 0 ≠ specRoundCoord (3 / 2000 : ℚ) 0 := by
  have h1 : encodeCoord (3 / 2000 : ℚ) 0 = 1 := by
    rw [encodeCoord, qtrunc, if_neg (by norm_num [scaleQ])]
    norm_num [scaleQ]
  have h2 : specRoundCoord (3 / 2000 : ℚ) 0 = 2 := by
    rw [specRoundCoord, round_eq]
    norm_num [scaleQ]
  exact ⟨h1, h2, by rw [h1, h2]; decide⟩

set_option maxHeartbeats 2000000 in
/-- C2 (amended): for every successful encode, the stored 32-bit integer
for each axis is the TRUNCATION toward zero of `(value - offset) / scale`
(no round-to-nearest step), where scale is fixed at 0.001 and the offset is
the minimum observed coordinate of that axis. -/
theorem c2_truncating_quantization (day year : Nat) (pts : List Point) (hne : pts ≠ []) :
    ∃ f, lasWrite day year pts = .ok f ∧
      f.xScale = scaleQ ∧ f.yScale = scaleQ ∧ f.zScale = scaleQ ∧
      f.xOff = minOf Point.x pts ∧ f.yOff = minOf Point.y pts ∧ f.zOff = minOf Point.z pts ∧
      (∀ v off : ℚ, encodeCoord v off = qtrunc ((v - off) / scaleQ)) ∧
      ∀ i, i < pts.length →
        ((f.bytes.drop 227).drop (34 * i)).take 4 =
          le32 (toU32 (encodeCoord ((pts.getD i default).x) (minOf Point.x pts))) ∧
        (((f.bytes.drop 227).drop (34 * i)).drop 4).take 4 =
          le32 (toU32 (encodeCoord ((pts.getD i default).y) (minOf Point.y pts))) ∧
        (((f.bytes.drop 227).drop (34 * i)).drop 8).take 4 =
          le32 (toU32 (encodeCoord ((pts.getD i default).z) (minOf Point.z pts))) := by
  set mX := minOf Point.x pts
  set mY := minOf Point.y pts
  set mZ := minOf Point.z pts
  have hw : lasWrite day year pts = .ok
      { bytes := lasHeader day year pts.length ++ (pts.map (encRecord mX mY mZ)).flatten
        xScale := scaleQ, yScale := scaleQ, zScale := scaleQ
        xOff := mX, yOff := mY, zOff := mZ
        fminX := mX, fminY := mY, fminZ := mZ
        fmaxX := maxOf Point.x pts, fmaxY := maxOf Point.y pts, fmaxZ := maxOf Point.z pts } := by
    unfold lasWrite
    rw [if_neg hne]
  refine ⟨_, hw, rfl, rfl, rfl, rfl, rfl, rfl, fun v off => rfl, ?_⟩
  intro i hi
  have hlen : ∀ r ∈ pts.map (encRecord mX mY mZ), r.length = 34 := by
    intro r hr
    obtain ⟨p, _, hpr⟩ := List.mem_map.mp hr
    rw [← hpr]
    exact encRecord_length mX mY mZ p
  have hdrop : (lasHeader day year pts.length ++
      (pts.map (encRecord mX mY mZ)).flatten).drop 227 = (pts.map (encRecord mX mY mZ)).flatten := by
    rw [← lasHeader_length day year pts.length, List.drop_left]
  have hmap : i < (pts.map (encRecord mX mY mZ)).length := by simp [hi]
  have hrec : ((pts.map (encRecord mX mY mZ)).drop i).flatten =
      encRecord mX mY mZ (pts.getD i default) ++ ((pts.map (encRecord mX mY mZ)).drop (i + 1)).flatten := by
    rw [List.drop_eq_getElem_cons hmap, List.flatten_cons]
    congr 1
    rw [List.getElem_map, List.getD_eq_getElem _ default hi]
  have hchunk : ((lasHeader day year pts.length ++
      (pts.map (encRecord mX mY mZ)).flatten).drop 227).drop (34 * i) =
      encRecord mX mY mZ (pts.getD i default) ++ ((pts.map (encRecord mX mY mZ)).drop (i + 1)).flatten := by
    rw [hdrop, flatten_drop_uniform 34 _ hlen i, hrec]
  set p := pts.getD i default
  have t1 : ∀ (A : Nat) (rest : List Nat), (le32 A ++ rest).take 4 = le32 A := by
    intro A rest
    rw [← le32_length A, List.take_left]
  have t2 : ∀ (A : Nat) (rest : List Nat), (le32 A ++ rest).drop 4 = rest := by
    intro A rest
    rw [← le32_length A, List.drop_left]
  have henc : encRecord mX mY mZ p =
      le32 (toU32 (encodeCoord p.x mX)) ++
      (le32 (toU32 (encodeCoord p.y mY)) ++
      (le32 (toU32 (encodeCoord p.z mZ)) ++
      (le16 p.intensity ++
      ([1, p.classification % 256, 0, 0] ++
      (le16 0 ++
      (le64 p.gpsbits ++
      (le16 p.r ++ (le16 p.g ++ le16 p.b)))))))) := rfl
  refine ⟨?_, ?_, ?_⟩
  · rw [hchunk, henc]
    simp only [List.append_assoc]
    rw [t1]
  · rw [hchunk, henc]
    simp only [List.append_assoc]
    rw [t2, t1]
  · rw [hchunk, henc, show (8 : Nat) = 4 + 4 from rfl, ← List.drop_drop]
    simp only [List.append_assoc]
    rw [t2, t2, t1]

/-- Witness for C2's amended theorem at a concrete one-point list. -/
theorem c2_truncating_quantization_witness :
    ∃ f, lasWrite 0 0 [wpt] = .ok f ∧
      f.xScale = scaleQ ∧ f.yScale = scaleQ ∧ f.zScale = scaleQ ∧
      f.xOff = minOf Point.x [wpt] ∧ f.yOff = minOf Point.y [wpt] ∧ f.zOff = minOf Point.z [wpt] ∧
      (∀ v off : ℚ, encodeCoord v off = qtrunc ((v - off) / scaleQ)) ∧
      ∀ i, i < [wpt].length →
        ((f.bytes.drop 227).drop (34 * i)).take 4 =
          le32 (toU32 (encodeCoord (([wpt].getD i default).x) (minOf Point.x [wpt]))) ∧
        (((f.bytes.drop 227).drop (34 * i)).drop 4).take 4 =
          le32 (toU32 (encodeCoord (([wpt].getD i default).y) (minOf Point.y [wpt]))) ∧
        (((f.bytes.drop 227).drop (34 * i)).drop 8).take 4 =
          le32 (toU32 (encodeCoord (([wpt].getD i default).z) (minOf Point.z [wpt]))) :=
  c2_truncating_quantization 0 0 [wpt] (by simp)

/-- C3 (amended): the encoder offers no record-variant choice: every
successful encode invocation writes point-format-id 3 with
point-record-length 34 (the 26-byte format-2 layout is never produced;
only the decoder handles it). -/
theorem c3_always_format3 (day year : Nat) (pts : List Point) (hne : pts ≠ []) :
    ∃ f, lasWrite day year pts = .ok f ∧
      f.bytes.getD 104 0 = 3 ∧ rd16 (f.bytes.drop 105) = 34 := by
  have hw : lasWrite day year pts = .ok
      { bytes := lasHeader day year pts.length ++
          (pts.map (encRecord (minOf Point.x pts) (minOf Point.y pts) (minOf Point.z pts))).flatten
        xScale := scaleQ, yScale := scaleQ, zScale := scaleQ
        xOff := minOf Point.x pts, yOff := minOf Point.y pts, zOff := minOf Point.z pts
        fminX := minOf Point.x pts, fminY := minOf Point.y pts, fminZ := minOf Point.z pts
        fmaxX := maxOf Point.x pts, fmaxY := maxOf Point.y pts, fmaxZ := maxOf Point.z pts } := by
    unfold lasWrite
    rw [if_neg hne]
  refine ⟨_, hw, ?_, ?_⟩
  · rw [List.getD_append _ _ _ _ (by rw [lasHeader_length]; omega)]
    exact lasHeader_getD104 day year pts.length
  · rw [List.drop_append_of_le_length (by rw [lasHeader_length]; omega), lasHeader_drop105]
    simp [rd16]

/-- Witness for C3's amended theorem. -/
theorem c3_always_format3_witness :
    ∃ f, lasWrite 0 0 [wpt] = .ok f ∧
      f.bytes.getD 104 0 = 3 ∧ rd16 (f.bytes.drop 105) = 34 :=
  c3_always_format3 0 0 [wpt] (by simp)

/-- C3 counterexample: encoding a point whose timestamp is absent (GPS-time
bit pattern zero) — the "without timestamp" variant of the claim — still
writes point-format-id 3 and record length 34, not the claimed 2 and 26:
no encode invocation can produce the 26-byte variant. -/
theorem c3_counterexample :
    ∃ f, lasWrite 0 0 [wptNoTs] = .ok f ∧
      f.bytes.getD 104 0 = 3 ∧ rd16 (f.bytes.drop 105) = 34 ∧
      ¬ (f.bytes.getD 104 0 = 2 ∧ rd16 (f.bytes.drop 105) = 26) := by
  have hw : lasWrite 0 0 [wptNoTs] = .ok
      { bytes := lasHeader 0 0 [wptNoTs].length ++
          ([wptNoTs].map (encRecord (minOf Point.x [wptNoTs]) (minOf Point.y [wptNoTs])
            (minOf Point.z [wptNoTs]))).flatten
        xScale := scaleQ, yScale := scaleQ, zScale := scaleQ
        xOff := minOf Point.x [wptNoTs], yOff := minOf Point.y [wptNoTs]
        zOff := minOf Point.z [wptNoTs]
        fminX := minOf Point.x [wptNoTs], fminY := minOf Point.y [wptNoTs]
        fminZ := minOf Point.z [wptNoTs]
        fmaxX := maxOf Point.x [wptNoTs], fmaxY := maxOf Point.y [wptNoTs]
        fmaxZ := maxOf Point.z [wptNoTs] } := by
    unfold lasWrite
    rw [if_neg (by simp)]
  have hg : (lasHeader 0 0 [wptNoTs].length ++
      ([wptNoTs].map (encRecord (minOf Point.x [wptNoTs]) (minOf Point.y [wptNoTs])
        (minOf Point.z [wptNoTs]))).flatten).getD 104 0 = 3 := by
    rw [List.getD_append _ _ _ _ (by rw [lasHeader_length]; omega)]
    exact lasHeader_getD104 0 0 [wptNoTs].length
  have hr : rd16 ((lasHeader 0 0 [wptNoTs].length ++
      ([wptNoTs].map (encRecord (minOf Point.x [wptNoTs]) (minOf Point.y [wptNoTs])
        (minOf Point.z [wptNoTs]))).flatten).drop 105) = 34 := by
    rw [List.drop_append_of_le_length (by rw [lasHeader_length]; omega), lasHeader_drop105]
    simp [rd16]
  exact ⟨_, hw, hg, hr, by rw [hg, hr]; omega⟩

/-- C6: encoding an empty point sequence fails with the writer's error, and
no file operation (no create, no write) is performed at all. -/
theorem c6_empty_encode_fails (day year : Nat) :
    lasWrite day year [] = .error "no points to write" ∧ lasWriteOps day year [] = [] := by
  constructor
  · simp [lasWrite]
  · simp [lasWriteOps]

theorem readRecsSt_fst (size : Nat) (dec : List Nat → Point) (hsz : 0 < size) :
    ∀ (n : Nat) (f : LasFile) (pos : Nat),
      (readRecsSt size dec n ⟨f, pos⟩).1 = readRecs size dec n (f.bytes.drop pos) ∧
      (readRecsSt size dec n ⟨f, pos⟩).2.f = f := by
  intro n
  induction n with
  | zero => intro f pos; exact ⟨rfl, rfl⟩
  | succ m ih =>
    intro f pos
    have hdd : (f.bytes.drop pos).drop size = f.bytes.drop (pos + size) := by
      rw [List.drop_drop, Nat.add_comm]
    by_cases h : f.bytes.length < pos + size
    · have h2 : (f.bytes.drop pos).length < size := by
        simp only [List.length_drop]
        omega
      simp only [readRecsSt, readFull, readRecs]
      rw [if_pos h, if_pos h2]
      exact ⟨rfl, rfl⟩
    · have h2 : ¬ (f.bytes.drop pos).length < size := by
        simp only [List.length_drop]
        omega
      simp only [readRecsSt, readFull, readRecs]
      rw [if_neg h, if_neg h2, hdd]
      dsimp only
      cases hrec : readRecsSt size dec m ⟨f, pos + size⟩ with
      | mk res st =>
        have ih1 : res = readRecs size dec m (f.bytes.drop (pos + size)) := by
          have hx := (ih f (pos + size)).1
          rw [hrec] at hx
          exact hx
        have ih2 : st.f = f := by
          have hx := (ih f (pos + size)).2
          rw [hrec] at hx
          exact hx
        rw [← ih1]
        cases res with
        | error e => exact ⟨rfl, ih2⟩
        | ok rest => exact ⟨rfl, ih2⟩

/-- C10: on any open reader, `ReadPoints` ignores the handle's current
position (it always seeks to byte 227 first), so calling it twice returns
the same point list and leaves the reader in the same state; its result is
the pure decode of the underlying file. -/
theorem c10_read_points_twice (s : ReaderState) :
    (readPointsSt s).1 = readPoints s.f ∧
    (readPointsSt ((readPointsSt s).2)).1 = (readPointsSt s).1 ∧
    (readPointsSt ((readPointsSt s).2)).2 = (readPointsSt s).2 := by
  have hpi : ∀ (f : LasFile) (p q : Nat),
      readPointsSt ⟨f, p⟩ = readPointsSt ⟨f, q⟩ := fun _ _ _ => rfl
  have hfst : ∀ (t : ReaderState), (readPointsSt t).1 = readPoints t.f := by
    intro t
    unfold readPointsSt readPoints
    cases hrh : readHeader t.f with
    | error e => rfl
    | ok h =>
      by_cases h2 : h.pointFormat = 2
      · simp only [h2, if_pos]
        exact (readRecsSt_fst 26 (decRec2 h) (by omega) h.pointCount t.f 227).1
      · by_cases h3 : h.pointFormat = 3
        · simp only [h2, if_false, h3, if_pos, if_neg h2]
          exact (readRecsSt_fst 34 (decRec3 h) (by omega) h.pointCount t.f 227).1
        · simp only [if_neg h2, if_neg h3]
  have hsf : ∀ (t : ReaderState), (readPointsSt t).2.f = t.f := by
    intro t
    unfold readPointsSt
    cases hrh : readHeader t.f with
    | error e => rfl
    | ok h =>
      by_cases h2 : h.pointFormat = 2
      · simp only [h2, if_pos]
        exact (readRecsSt_fst 26 (decRec2 h) (by omega) h.pointCount t.f 227).2
      · by_cases h3 : h.pointFormat = 3
        · simp only [h2, if_false, h3, if_pos, if_neg h2]
          exact (readRecsSt_fst 34 (decRec3 h) (by omega) h.pointCount t.f 227).2
        · simp only [if_neg h2, if_neg h3]
  have hsame : readPointsSt ((readPointsSt s).2) = readPointsSt s := by
    have e1 : (readPointsSt s).2 = ⟨((readPointsSt s).2).f, ((readPointsSt s).2).pos⟩ := rfl
    have e2 : s = ⟨s.f, s.pos⟩ := rfl
    rw [e1, hsf s, e2, hpi]
  exact ⟨hfst s, by rw [hsame], by rw [hsame]⟩

/-- C7: the decoder's exact failure/success behaviour.  Opening a file whose
first four bytes are not "LASF" fails whatever the file length (a file
shorter than the 227-byte header fails its header read; a longer one fails
the signature check); a parsed header whose point-format-id is neither 2
nor 3 is the unsupported-format error; a point region truncated before
`pointCount` records is a hard failure; otherwise decoding returns exactly
`pointCount` points — format 2 read as 26-byte records whose decoded
timestamp is zero, format 3 as 34-byte records whose timestamp bytes 20-28
are read into the point. -/
theorem c7_decoder_error_cases (f : LasFile) :
    (f.bytes.take 4 ≠ lasMagic → ∃ e, readHeader f = .error e) ∧
    (∀ h, readHeader f = .ok h → h.pointFormat ≠ 2 → h.pointFormat ≠ 3 →
      readPoints f = .error "unsupported point format") ∧
    (∀ h, readHeader f = .ok h → h.pointFormat = 2 →
      (f.bytes.drop 227).length < 26 * h.pointCount → ∃ e, readPoints f = .error e) ∧
    (∀ h, readHeader f = .ok h → h.pointFormat = 3 →
      (f.bytes.drop 227).length < 34 * h.pointCount → ∃ e, readPoints f = .error e) ∧
    (∀ h, readHeader f = .ok h → h.pointFormat = 2 →
      26 * h.pointCount ≤ (f.bytes.drop 227).length →
      ∃ outs, readPoints f = .ok outs ∧ outs.length = h.pointCount ∧
        ∀ i, i < h.pointCount →
          outs.getD i default = decRec2 h (((f.bytes.drop 227).drop (26 * i)).take 26) ∧
          (outs.getD i default).gpsbits = 0) ∧
    (∀ h, readHeader f = .ok h → h.pointFormat = 3 →
      34 * h.pointCount ≤ (f.bytes.drop 227).length →
      ∃ outs, readPoints f = .ok outs ∧ outs.length = h.pointCount ∧
        ∀ i, i < h.pointCount →
          outs.getD i default = decRec3 h (((f.bytes.drop 227).drop (34 * i)).take 34) ∧
          (outs.getD i default).gpsbits =
            rd64 ((((f.bytes.drop 227).drop (34 * i)).take 34).drop 20)) := by
  refine ⟨?_, ?_, ?_, ?_, ?_, ?_⟩
  · intro hsig
    unfold readHeader
    by_cases hlen : f.bytes.length < 227
    · exact ⟨"error reading header", by rw [if_pos hlen]⟩
    · exact ⟨"invalid LAS file: wrong signature", by rw [if_neg hlen, if_pos hsig]⟩
  · intro h hrh h2 h3
    exact readPoints_unsupported f h hrh h2 h3
  · intro h hrh h2 hshort
    obtain ⟨e, he⟩ := readRecs_short 26 (decRec2 h) h.pointCount (f.bytes.drop 227) hshort
    exact ⟨e, by rw [readPoints_fmt2 f h hrh h2, he]⟩
  · intro h hrh h3 hshort
    obtain ⟨e, he⟩ := readRecs_short 34 (decRec3 h) h.pointCount (f.bytes.drop 227) hshort
    exact ⟨e, by rw [readPoints_fmt3 f h hrh h3, he]⟩
  · intro h hrh h2 hlong
    obtain ⟨outs, ho, hl, hc⟩ := readRecs_ok 26 (decRec2 h) h.pointCount (f.bytes.drop 227) hlong
    refine ⟨outs, by rw [readPoints_fmt2 f h hrh h2, ho], hl, ?_⟩
    intro i hi
    refine ⟨hc i hi, ?_⟩
    rw [hc i hi]
    rfl
  · intro h hrh h3 hlong
    obtain ⟨outs, ho, hl, hc⟩ := readRecs_ok 34 (decRec3 h) h.pointCount (f.bytes.drop 227) hlong
    refine ⟨outs, by rw [readPoints_fmt3 f h hrh h3, ho], hl, ?_⟩
    intro i hi
    refine ⟨hc i hi, ?_⟩
    rw [hc i hi]
    rfl

/-- A hand-built artifact for the decoder witnesses: a 4-byte signature, a
zero header region with the format byte at offset 104, record length 26 at
105, the count at 107, and a point-data region. -/
def mkTestFile (sig : List Nat) (fmt count : Nat) (body : List Nat) : LasFile :=
  { bytes := sig ++ List.replicate 100 0 ++ [fmt] ++ le16 26 ++ le32 count ++
      List.replicate 116 0 ++ body
    xScale := 1, yScale := 1, zScale := 1, xOff := 0, yOff := 0, zOff := 0
    fminX := 0, fminY := 0, fminZ := 0, fmaxX := 0, fmaxY := 0, fmaxZ := 0 }

/-- The header `readHeader` extracts from `mkTestFile lasMagic fmt count b`. -/
def mkTestHeader (fmt count : Nat) : Header :=
  { versionMajor := 0, versionMinor := 0, pointFormat := fmt, pointCount := count,
    pointRecordLength := 26, hxScale := 1, hyScale := 1, hzScale := 1,
    hxOff := 0, hyOff := 0, hzOff := 0 }

set_option maxRecDepth 8000 in
/-- Witness for C7: each branch of the decoder theorem exercised on a
concrete file — bad signature, unsupported format 5, truncated format 2 and
3 regions, and complete one-record format 2 and format 3 files. -/
theorem c7_decoder_error_cases_witness :
    (∃ e, readHeader (mkTestFile [0, 0, 0, 0] 2 0 []) = .error e) ∧
    readPoints (mkTestFile lasMagic 5 0 []) = .error "unsupported point format" ∧
    (∃ e, readPoints (mkTestFile lasMagic 2 1 []) = .error e) ∧
    (∃ e, readPoints (mkTestFile lasMagic 3 1 []) = .error e) ∧
    (∃ outs, readPoints (mkTestFile lasMagic 2 1 (List.replicate 26 0)) = .ok outs ∧
      outs.length = (mkTestHeader 2 1).pointCount ∧
      ∀ i, i < (mkTestHeader 2 1).pointCount →
        outs.getD i default = decRec2 (mkTestHeader 2 1)
          ((((mkTestFile lasMagic 2 1 (List.replicate 26 0)).bytes.drop 227).drop (26 * i)).take 26) ∧
        (outs.getD i default).gpsbits = 0) ∧
    (∃ outs, readPoints (mkTestFile lasMagic 3 1 (List.replicate 34 5)) = .ok outs ∧
      outs.length = (mkTestHeader 3 1).pointCount ∧
      ∀ i, i < (mkTestHeader 3 1).pointCount →
        outs.getD i default = decRec3 (mkTestHeader 3 1)
          ((((mkTestFile lasMagic 3 1 (List.replicate 34 5)).bytes.drop 227).drop (34 * i)).take 34) ∧
        (outs.getD i default).gpsbits =
          rd64 (((((mkTestFile lasMagic 3 1 (List.replicate 34 5)).bytes.drop 227).drop (34 * i)).take 34).drop 20)) := by
  refine ⟨?_, ?_, ?_, ?_, ?_, ?_⟩
  · exact (c7_decoder_error_cases (mkTestFile [0, 0, 0, 0] 2 0 [])).1 (by decide)
  · exact (c7_decoder_error_cases (mkTestFile lasMagic 5 0 [])).2.1
      (mkTestHeader 5 0) rfl (by decide) (by decide)
  · exact (c7_decoder_error_cases (mkTestFile lasMagic 2 1 [])).2.2.1
      (mkTestHeader 2 1) rfl (by decide) (by decide)
  · exact (c7_decoder_error_cases (mkTestFile lasMagic 3 1 [])).2.2.2.1
      (mkTestHeader 3 1) rfl (by decide) (by decide)
  · exact (c7_decoder_error_cases (mkTestFile lasMagic 2 1 (List.replicate 26 0))).2.2.2.2.1
      (mkTestHeader 2 1) rfl (by decide) (by decide)
  · exact (c7_decoder_error_cases (mkTestFile lasMagic 3 1 (List.replicate 34 5))).2.2.2.2.2
      (mkTestHeader 3 1) rfl (by decide) (by decide)

/-- C5: amplitude normalization maps the empty string and the literal "?"
to the no-amplitude sentinel, and every other string to the result of
removing the decimal-point character and keeping at most the first three
remaining characters — pure truncation, no numeric rounding. -/
theorem c5_normalize_amp :
    normalizeAmp [] = noAmp ∧
    normalizeAmp (asciiOf ['?']) = noAmp ∧
    ∀ s, s ≠ [] → s ≠ asciiOf ['?'] →
      normalizeAmp s = (s.filter (fun c => c ≠ 46)).take 3 := by
  refine ⟨rfl, rfl, ?_⟩
  intro s h1 h2
  unfold normalizeAmp
  rw [if_neg (by simp [h1, h2])]
  by_cases h3 : 3 < (s.filter (fun c => c ≠ 46)).length
  · rw [if_pos h3]
  · rw [if_neg h3, List.take_of_length_le (by omega)]

/-- Witness for C5: the truncation branch at "0.9789", with the spec's
example values evaluated. -/
theorem c5_normalize_amp_witness :
    normalizeAmp (asciiOf ['0', '.', '9', '7', '8', '9']) =
      ((asciiOf ['0', '.', '9', '7', '8', '9']).filter (fun c => c ≠ 46)).take 3 ∧
    normalizeAmp (asciiOf ['0', '.', '9', '7']) = asciiOf ['0', '9', '7'] ∧
    normalizeAmp (asciiOf ['2', '.', '1', '0']) = asciiOf ['2', '1', '0'] ∧
    normalizeAmp (asciiOf ['1', '.', '5']) = asciiOf ['1', '5'] :=
  ⟨c5_normalize_amp.2.2 (asciiOf ['0', '.', '9', '7', '8', '9']) (by decide) (by decide),
   by decide, by decide, by decide⟩

/-- C8: the derived color is full red when counter-a < counter-b, full
green on equality (ties go to green), full blue when counter-a > counter-b. -/
theorem c8_determine_color (a b : Int) :
    (a < b → determineColor a b = (65535, 0, 0)) ∧
    (a = b → determineColor a b = (0, 65535, 0)) ∧
    (b < a → determineColor a b = (0, 0, 65535)) := by
  refine ⟨?_, ?_, ?_⟩ <;> intro h
  · unfold determineColor
    rw [if_pos h]
  · unfold determineColor
    rw [if_neg (by omega), if_pos h]
  · unfold determineColor
    rw [if_neg (by omega), if_neg (by omega)]

/-- Witness for C8 at the spec's example counters (1,4), (4,4), (5,4). -/
theorem c8_determine_color_witness :
    determineColor 1 4 = (65535, 0, 0) ∧ determineColor 4 4 = (0, 65535, 0) ∧
      determineColor 5 4 = (0, 0, 65535) :=
  ⟨(c8_determine_color 1 4).1 (by decide), (c8_determine_color 4 4).2.1 rfl,
   (c8_determine_color 5 4).2.2 (by decide)⟩

/-! ### Grouping lemmas -/

theorem lookupG_groupsAdd_same (gs : List (GroupKey × List Row)) (k : GroupKey) (r : Row) :
    lookupG k (groupsAdd gs k r) = some ((lookupG k gs).getD [] ++ [r]) := by
  induction gs with
  | nil => simp [groupsAdd, lookupG]
  | cons g rest ih =>
    match g with
    | (k0, rs) =>
      by_cases h : k0 = k
      · subst h
        simp [groupsAdd, lookupG]
      · simp only [groupsAdd, if_neg h, lookupG, ih]

theorem lookupG_groupsAdd_ne (gs : List (GroupKey × List Row)) (k k2 : GroupKey) (r : Row)
    (h : k2 ≠ k) : lookupG k2 (groupsAdd gs k r) = lookupG k2 gs := by
  induction gs with
  | nil => simp [groupsAdd, lookupG, Ne.symm h]
  | cons g rest ih =>
    obtain ⟨k0, rs⟩ := g
    by_cases h0 : k0 = k
    · subst h0
      simp [groupsAdd, lookupG, Ne.symm h]
    · simp only [groupsAdd, if_neg h0, lookupG, ih]

theorem lookupG_processChunk (chunk : List Row) (gs : List (GroupKey × List Row)) (k : GroupKey) :
    (lookupG k (processChunk chunk gs)).getD [] =
      (lookupG k gs).getD [] ++ chunk.filter (fun r => keyOf r = some k) := by
  induction chunk generalizing gs with
  | nil => simp [processChunk]
  | cons r rest ih =>
    simp only [processChunk]
    cases hk : keyOf r with
    | none =>
      rw [ih gs]
      have : (decide (keyOf r = some k)) = false := by
        simp [hk]
      simp [List.filter_cons, this]
    | some kr =>
      by_cases hkr : kr = k
      · subst hkr
        rw [ih (groupsAdd gs kr r), lookupG_groupsAdd_same]
        have : (decide (keyOf r = some kr)) = true := by simp [hk]
        simp [List.filter_cons, this]
      · rw [ih (groupsAdd gs kr r), lookupG_groupsAdd_ne gs kr k r (Ne.symm hkr)]
        have : (decide (keyOf r = some k)) = false := by simp [hk, hkr]
        simp [List.filter_cons, this]

theorem keys_groupsAdd (gs : List (GroupKey × List Row)) (k : GroupKey) (r : Row) :
    (groupsAdd gs k r).map Prod.fst =
      if k ∈ gs.map Prod.fst then gs.map Prod.fst else gs.map Prod.fst ++ [k] := by
  induction gs with
  | nil => simp [groupsAdd]
  | cons g rest ih =>
    match g with
    | (k0, rs) =>
      by_cases h : k0 = k
      · subst h
        simp [groupsAdd]
      · simp only [groupsAdd, if_neg h, List.map_cons, ih]
        by_cases hm : k ∈ rest.map Prod.fst
        · simp [hm, Ne.symm h]
        · simp [hm, Ne.symm h, List.mem_cons]

theorem keys_nodup_processChunk (chunk : List Row) (gs : List (GroupKey × List Row))
    (h : (gs.map Prod.fst).Nodup) : ((processChunk chunk gs).map Prod.fst).Nodup := by
  induction chunk generalizing gs with
  | nil => exact h
  | cons r rest ih =>
    simp only [processChunk]
    cases keyOf r with
    | none => exact ih gs h
    | some kr =>
      apply ih
      rw [keys_groupsAdd]
      by_cases hm : kr ∈ gs.map Prod.fst
      · rw [if_pos hm]
        exact h
      · rw [if_neg hm]
        simp [List.nodup_append, h, hm]

theorem processChunk_append (a b : List Row) (gs : List (GroupKey × List Row)) :
    processChunk (a ++ b) gs = processChunk b (processChunk a gs) := by
  induction a generalizing gs with
  | nil => simp [processChunk]
  | cons r rest ih =>
    simp only [List.cons_append, processChunk]
    cases keyOf r with
    | none => exact ih gs
    | some kr => exact ih (groupsAdd gs kr r)

theorem sortGroupsChunked_flatten (chunks : List (List Row)) :
    sortGroupsChunked chunks = sortGroups chunks.flatten := by
  have key : ∀ (cs : List (List Row)) (gs : List (GroupKey × List Row)),
      cs.foldl (fun acc c => processChunk c acc) gs = processChunk cs.flatten gs := by
    intro cs
    induction cs with
    | nil => intro gs; simp [processChunk]
    | cons c rest ih =>
      intro gs
      simp only [List.foldl_cons, List.flatten_cons, processChunk_append]
      exact ih (processChunk c gs)
  exact key chunks []

theorem groupsAdd_member_key (gs : List (GroupKey × List Row)) (kr : GroupKey) (r : Row)
    (hk : keyOf r = some kr)
    (hinv : ∀ g ∈ gs, ∀ q ∈ g.2, keyOf q = some g.1) :
    ∀ g ∈ groupsAdd gs kr r, ∀ q ∈ g.2, keyOf q = some g.1 := by
  induction gs with
  | nil =>
    intro g hg q hq
    simp only [groupsAdd, List.mem_singleton] at hg
    subst hg
    simp only [List.mem_singleton] at hq
    subst hq
    exact hk
  | cons g1 rest ih =>
    obtain ⟨k1, rs1⟩ := g1
    intro g hg q hq
    by_cases he : k1 = kr
    · subst he
      simp only [groupsAdd, if_pos rfl] at hg
      cases hg with
      | head =>
        dsimp only at hq ⊢
        rw [List.mem_append, List.mem_singleton] at hq
        rcases hq with hq | hq
        · exact hinv (k1, rs1) (List.mem_cons_self _ _) q hq
        · subst hq
          exact hk
      | tail _ h2 => exact hinv g (List.mem_cons_of_mem _ h2) q hq
    · simp only [groupsAdd, if_neg he] at hg
      cases hg with
      | head => exact hinv (k1, rs1) (List.mem_cons_self _ _) q hq
      | tail _ h2 => exact ih (fun g2 hg2 => hinv g2 (List.mem_cons_of_mem _ hg2)) g h2 q hq

theorem groups_member_key (chunk : List Row) (gs : List (GroupKey × List Row))
    (hinv : ∀ g ∈ gs, ∀ r ∈ g.2, keyOf r = some g.1) :
    ∀ g ∈ processChunk chunk gs, ∀ r ∈ g.2, keyOf r = some g.1 := by
  induction chunk generalizing gs with
  | nil => exact hinv
  | cons r rest ih =>
    simp only [processChunk]
    cases hk : keyOf r with
    | none => exact ih gs hinv
    | some kr => exact ih (groupsAdd gs kr r) (groupsAdd_member_key gs kr r hk hinv)

theorem lookupG_mem (gs : List (GroupKey × List Row)) (k : GroupKey) (rs : List Row)
    (h : lookupG k gs = some rs) : (k, rs) ∈ gs := by
  induction gs with
  | nil => simp [lookupG] at h
  | cons g rest ih =>
    obtain ⟨k0, rs0⟩ := g
    by_cases h0 : k0 = k
    · subst h0
      rw [lookupG, if_pos rfl] at h
      simp only [Option.some.injEq] at h
      subst h
      exact List.mem_cons_self _ _
    · rw [lookupG, if_neg h0] at h
      exact List.mem_cons_of_mem _ (ih h)

theorem lookupF_filesAdd_same (fs : List (List Nat × List Row)) (n : List Nat) (rs : List Row) :
    lookupF n (filesAdd fs n rs) = some ((lookupF n fs).getD [] ++ rs) := by
  induction fs with
  | nil => simp [filesAdd, lookupF]
  | cons g rest ih =>
    match g with
    | (n0, rs0) =>
      by_cases h : n0 = n
      · subst h
        simp [filesAdd, lookupF]
      · simp only [filesAdd, if_neg h, lookupF, ih]

theorem lookupF_filesAdd_ne (fs : List (List Nat × List Row)) (n n2 : List Nat) (rs : List Row)
    (h : n2 ≠ n) : lookupF n2 (filesAdd fs n rs) = lookupF n2 fs := by
  induction fs with
  | nil => simp [filesAdd, lookupF, Ne.symm h]
  | cons g rest ih =>
    match g with
    | (n0, rs0) =>
      by_cases h0 : n0 = n
      · subst h0
        simp [filesAdd, lookupF, Ne.symm h]
      · simp only [filesAdd, if_neg h0, lookupF, ih]

theorem lookupF_writeFiles (gs : List (GroupKey × List Row)) (n : List Nat) :
    (lookupF n (writeFiles gs)).getD [] =
      ((gs.filter (fun g => artifactName g.1 = n)).map Prod.snd).flatten := by
  have key : ∀ (l : List (GroupKey × List Row)) (fs : List (List Nat × List Row)),
      (lookupF n (l.foldl (fun acc g => filesAdd acc (artifactName g.1) g.2) fs)).getD [] =
        (lookupF n fs).getD [] ++ ((l.filter (fun g => artifactName g.1 = n)).map Prod.snd).flatten := by
    intro l
    induction l with
    | nil => intro fs; simp
    | cons g rest ih =>
      intro fs
      simp only [List.foldl_cons]
      rw [ih (filesAdd fs (artifactName g.1) g.2)]
      by_cases h : artifactName g.1 = n
      · rw [← h, lookupF_filesAdd_same]
        have : (decide (artifactName g.1 = artifactName g.1)) = true := by simp
        simp [List.filter_cons, h]
      · rw [lookupF_filesAdd_ne fs (artifactName g.1) n g.2 (fun he => h he.symm)]
        simp [List.filter_cons, h]
  have h0 : (lookupF n ([] : List (List Nat × List Row))).getD [] = [] := rfl
  rw [writeFiles, key gs [], h0, List.nil_append]

/-- C9 (amended): every record sequence is grouped so that the rows of a
key form exactly one bucket, in original relative order (and chunked
ingestion yields the same grouping as a single pass); each bucket is
written as one contiguous, order-preserving block of the artifact named by
its key; and records of a different key land in a different artifact
PROVIDED the two keys' sanitized artifact names differ — filename
sanitization can collide distinct keys into one artifact. -/
theorem c9_grouping (rows : List Row) (chunks : List (List Row)) (k k2 : GroupKey) :
    (lookupG k (sortGroups rows)).getD [] = rows.filter (fun r => keyOf r = some k) ∧
    ((sortGroups rows).map Prod.fst).Nodup ∧
    sortGroupsChunked chunks = sortGroups chunks.flatten ∧
    (rows.filter (fun r => keyOf r = some k)) <:+:
      (lookupF (artifactName k) (writeFiles (sortGroups rows))).getD [] ∧
    (artifactName k ≠ artifactName k2 →
      ∀ r ∈ (lookupF (artifactName k) (writeFiles (sortGroups rows))).getD [],
        keyOf r ≠ some k2) := by
  have hc1 : (lookupG k (sortGroups rows)).getD [] =
      rows.filter (fun r => keyOf r = some k) := by
    rw [sortGroups, lookupG_processChunk]
    rfl
  refine ⟨hc1, keys_nodup_processChunk rows [] (by simp), sortGroupsChunked_flatten chunks, ?_, ?_⟩
  · rw [lookupF_writeFiles]
    cases hlk : lookupG k (sortGroups rows) with
    | none =>
      have hfil : rows.filter (fun r => keyOf r = some k) = [] := by
        rw [← hc1, hlk]
        rfl
      rw [hfil]
      exact List.nil_infix
    | some rsK =>
      have hfil : rows.filter (fun r => keyOf r = some k) = rsK := by
        rw [← hc1, hlk]
        rfl
      have hmem : (k, rsK) ∈ sortGroups rows := lookupG_mem _ k rsK hlk
      have hmemf : (k, rsK) ∈ (sortGroups rows).filter
          (fun g => artifactName g.1 = artifactName k) := by
        rw [List.mem_filter]
        exact ⟨hmem, by simp⟩
      have hmems : rsK ∈ ((sortGroups rows).filter
          (fun g => artifactName g.1 = artifactName k)).map Prod.snd :=
        List.mem_map_of_mem Prod.snd hmemf
      rw [hfil]
      exact List.infix_of_mem_flatten hmems
  · intro hne r hr hkey
    rw [lookupF_writeFiles] at hr
    rw [List.mem_flatten] at hr
    obtain ⟨l, hl, hrl⟩ := hr
    rw [List.mem_map] at hl
    obtain ⟨g, hgf, hgl⟩ := hl
    rw [List.mem_filter] at hgf
    obtain ⟨hg, hname⟩ := hgf
    have hkr : keyOf r = some g.1 := by
      have hinv0 : ∀ g0 ∈ ([] : List (GroupKey × List Row)), ∀ q ∈ g0.2, keyOf q = some g0.1 := by
        simp
      exact groups_member_key rows [] hinv0 g hg r (hgl ▸ hrl)
    have hgk2 : g.1 = k2 := by
      rw [hkr] at hkey
      exact Option.some.injEq _ _ ▸ hkey ▸ rfl
    have hnm : artifactName g.1 = artifactName k := by
      simpa using hname
    rw [hgk2] at hnm
    exact hne hnm.symm

/-- The timestamp string shared by the C9 example rows. -/
def rowTime : List Nat :=
  asciiOf ['2','0','2','5','/','O','c','t','/','0','1',' ','0','9',':','3','0',':','0','2','.','8','0','0']

/-- A row whose amplitude "??" normalizes to the literal "??" (not the
sentinel) but whose artifact name loses both question marks. -/
def rowA : Row := { time := rowTime, design := [68], amp := asciiOf ['?','?'], payload := [] }

/-- A row with an empty amplitude: the no-amplitude sentinel. -/
def rowB : Row := { time := rowTime, design := [68], amp := [], payload := [] }

/-- A row with design "E" and amplitude "0.97": a distinct artifact. -/
def rowC : Row := { time := rowTime, design := [69], amp := asciiOf ['0','.','9','7'], payload := [] }

/-- GroupKey of `rowA`. -/
def keyA : GroupKey :=
  { date := asciiOf ['2','0','2','5','-','1','0','-','0','1'], designName := [68],
    amp := asciiOf ['?','?'] }

/-- GroupKey of `rowB`. -/
def keyB : GroupKey :=
  { date := asciiOf ['2','0','2','5','-','1','0','-','0','1'], designName := [68], amp := noAmp }

/-- GroupKey of `rowC`. -/
def keyC : GroupKey :=
  { date := asciiOf ['2','0','2','5','-','1','0','-','0','1'], designName := [69],
    amp := asciiOf ['0','9','7'] }

/-- C9 counterexample: rows with amplitude "??" and with no amplitude have
DIFFERENT GroupKeys, yet their sanitized artifact names coincide (the
sentinel renders as no token, and '?' is stripped), so the pipeline writes
both records into the SAME artifact — refuting "any two records differing
in a key component are written to different artifacts". -/
theorem c9_counterexample :
    keyOf rowA = some keyA ∧ keyOf rowB = some keyB ∧ keyA ≠ keyB ∧
      artifactName keyA = artifactName keyB ∧
      writeFiles (sortGroups [rowA, rowB]) = [(artifactName keyA, [rowA, rowB])] := by
  decide

/-- Witness for C9 on three concrete rows: rowA's bucket is its filtered
sublist, keys are unique, chunked grouping equals flat grouping, rowA's
rows form a contiguous block of their artifact, and no rowC record (whose
artifact name differs) lands in rowA's artifact. -/
theorem c9_grouping_witness :
    (lookupG keyA (sortGroups [rowA, rowB, rowC])).getD [] =
      [rowA, rowB, rowC].filter (fun r => keyOf r = some keyA) ∧
    ((sortGroups [rowA, rowB, rowC]).map Prod.fst).Nodup ∧
    sortGroupsChunked [[rowA], [rowB, rowC]] = sortGroups [[rowA], [rowB, rowC]].flatten ∧
    ([rowA, rowB, rowC].filter (fun r => keyOf r = some keyA)) <:+:
      (lookupF (artifactName keyA) (writeFiles (sortGroups [rowA, rowB, rowC]))).getD [] ∧
    (∀ r ∈ (lookupF (artifactName keyA) (writeFiles (sortGroups [rowA, rowB, rowC]))).getD [],
      keyOf r ≠ some keyC) :=
  ⟨(c9_grouping [rowA, rowB, rowC] [[rowA], [rowB, rowC]] keyA keyC).1,
   (c9_grouping [rowA, rowB, rowC] [[rowA], [rowB, rowC]] keyA keyC).2.1,
   (c9_grouping [rowA, rowB, rowC] [[rowA], [rowB, rowC]] keyA keyC).2.2.1,
   (c9_grouping [rowA, rowB, rowC] [[rowA], [rowB, rowC]] keyA keyC).2.2.2.1,
   (c9_grouping [rowA, rowB, rowC] [[rowA], [rowB, rowC]] keyA keyC).2.2.2.2 (by decide)⟩

/-! ### Date-parsing lemmas -/

/-- A canonical timestamp rendering of the parser's input language:
four-digit year, '/', a month-table name, '/', two-digit day, ' ',
two-digit hour, ':', two-digit minute, ':', two-digit second, then an
optional fraction tail. -/
def buildTs (y mon d h mi sec : Nat) (frac : List Nat) : List Nat :=
  pad4 y ++ [47] ++ monthNames.getD (mon - 1) [] ++ [47] ++ pad2 d ++ [32] ++
  pad2 h ++ [58] ++ pad2 mi ++ [58] ++ pad2 sec ++ frac

theorem daysIn_le31 (m y : Nat) : daysIn m y ≤ 31 := by
  unfold daysIn
  split_ifs <;> omega

theorem getYear4_pad4 (y : Nat) (hy : y < 10000) (rest : List Nat) :
    getYear4 (pad4 y ++ rest) = some (y, rest) := by
  simp only [pad4, List.cons_append, List.nil_append, getYear4]
  rw [if_pos (by simp only [isDigitByte, Bool.and_eq_true, decide_eq_true_eq]; omega)]
  simp only [digitVal, Option.some.injEq, Prod.mk.injEq, eq_self_iff_true, and_true]
  omega

theorem getnum2_pad2 (d : Nat) (hd : d < 100) (rest : List Nat) :
    getnum2 (pad2 d ++ rest) = some (d, rest) := by
  simp only [pad2, List.cons_append, List.nil_append, getnum2]
  rw [if_pos (by simp only [isDigitByte, Bool.and_eq_true, decide_eq_true_eq]; omega)]
  simp only [digitVal, Option.some.injEq, Prod.mk.injEq, eq_self_iff_true, and_true]
  omega

theorem getnum1or2_pad2 (h : Nat) (hh : h < 100) (rest : List Nat) :
    getnum1or2 (pad2 h ++ rest) = some (h, rest) := by
  simp only [pad2, List.cons_append, List.nil_append, getnum1or2]
  rw [if_neg (by simp only [isDigitByte, Bool.not_eq_true]; simp; omega)]
  rw [if_pos (by simp only [isDigitByte, Bool.and_eq_true, decide_eq_true_eq]; omega)]
  simp only [digitVal, Option.some.injEq, Prod.mk.injEq, eq_self_iff_true, and_true]
  omega

theorem expectByte_cons (c : Nat) (rest : List Nat) : expectByte c (c :: rest) = some rest := by
  simp [expectByte]

theorem lookupMonth_name (mon : Nat) (h1 : 1 ≤ mon) (h2 : mon ≤ 12) (rest : List Nat) :
    lookupMonth (monthNames.getD (mon - 1) [] ++ rest) = some (mon, rest) := by
  interval_cases mon <;>
    simp [lookupMonth, lookupMonthAux, monthNames, matchCI, eqFold, asciiOf]

theorem takeDigits_all (ds : List Nat) (h : ∀ c ∈ ds, isDigitByte c = true) :
    (takeDigits ds).2 = [] := by
  induction ds with
  | nil => rfl
  | cons c rest ih =>
    simp only [takeDigits, h c (List.mem_cons_self c rest), if_true]
    exact ih (fun q hq => h q (List.mem_cons_of_mem c hq))

theorem parseFrac_digits (d0 : Nat) (ds : List Nat) (h : ∀ c ∈ d0 :: ds, isDigitByte c = true) :
    parseFrac (46 :: d0 :: ds) = (takeDigits (d0 :: ds)).2 := by
  simp only [parseFrac]
  rw [if_pos]
  simp [h d0 (List.mem_cons_self d0 ds)]

/-- The full positive direction: every canonically rendered timestamp with
in-range components and an optional all-digit fraction parses to its date. -/
theorem parseDate_valid (y mon d h mi sec : Nat) (frac : List Nat)
    (hy : y < 10000) (hm1 : 1 ≤ mon) (hm2 : mon ≤ 12)
    (hd1 : 1 ≤ d) (hd2 : d ≤ daysIn mon y)
    (hh : h < 24) (hmi : mi < 60) (hsec : sec < 60)
    (hfrac : frac = [] ∨ ∃ ds, frac = 46 :: ds ∧ ds ≠ [] ∧ ∀ c ∈ ds, isDigitByte c = true) :
    parseDate (buildTs y mon d h mi sec frac) = some (dateOut y mon d) := by
  have hd100 : d < 100 := by
    have := daysIn_le31 mon y
    omega
  unfold parseDate buildTs
  simp only [List.append_assoc]
  rw [getYear4_pad4 y hy]
  dsimp only
  rw [List.singleton_append, expectByte_cons]
  dsimp only
  rw [lookupMonth_name mon hm1 hm2]
  dsimp only
  rw [List.singleton_append, expectByte_cons]
  dsimp only
  rw [getnum2_pad2 d hd100]
  dsimp only
  rw [List.singleton_append, expectByte_cons]
  dsimp only
  rw [getnum1or2_pad2 h (by omega)]
  dsimp only
  rw [List.singleton_append, expectByte_cons]
  dsimp only
  rw [getnum2_pad2 mi (by omega)]
  dsimp only
  rw [List.singleton_append, expectByte_cons]
  dsimp only
  rw [getnum2_pad2 sec (by omega)]
  dsimp only
  have hfr : parseFrac frac = [] := by
    rcases hfrac with rfl | ⟨ds, rfl, hne, hdig⟩
    · rfl
    · match ds, hne with
      | d0 :: ds', _ =>
        rw [parseFrac_digits d0 ds' (by intro c hc; exact hdig c hc)]
        exact takeDigits_all _ (by intro c hc; exact hdig c hc)
  rw [hfr]
  rw [if_neg (by simp), if_neg (by omega), if_neg (by omega), if_neg (by omega),
      if_neg (by omega)]

theorem getYear4_lt (s : List Nat) (y : Nat) (s1 : List Nat) (h : getYear4 s = some (y, s1)) :
    y < 10000 := by
  match s with
  | [] => simp [getYear4] at h
  | [_] => simp [getYear4] at h
  | [_, _] => simp [getYear4] at h
  | [_, _, _] => simp [getYear4] at h
  | c0 :: c1 :: c2 :: c3 :: rest =>
    simp only [getYear4] at h
    by_cases hc : (isDigitByte c0 && isDigitByte c1 && isDigitByte c2 && isDigitByte c3) = true
    · rw [if_pos hc] at h
      simp only [Option.some.injEq, Prod.mk.injEq] at h
      obtain ⟨hy, _⟩ := h
      simp only [isDigitByte, Bool.and_eq_true, decide_eq_true_eq] at hc
      simp only [digitVal] at hy
      omega
    · rw [if_neg hc] at h
      exact absurd h (by simp)

theorem lookupMonthAux_bound (names : List (List Nat)) :
    ∀ (i : Nat) (s : List Nat) (m : Nat) (rest : List Nat),
      lookupMonthAux i names s = some (m, rest) → i ≤ m ∧ m < i + names.length := by
  induction names with
  | nil => intro i s m rest h; simp [lookupMonthAux] at h
  | cons nm tail ih =>
    intro i s m rest h
    simp only [lookupMonthAux] at h
    by_cases hm : matchCI nm s = true
    · rw [if_pos hm] at h
      simp only [Option.some.injEq, Prod.mk.injEq] at h
      obtain ⟨hmi, _⟩ := h
      subst hmi
      simp only [List.length_cons]
      omega
    · rw [if_neg hm] at h
      have := ih (i + 1) s m rest h
      simp only [List.length_cons]
      omega

/-- Soundness: whenever the parser succeeds, the output is the rendered
date of in-range components (month from the table, day valid for the
month/year). -/
theorem parseDate_shape (s out : List Nat) (h : parseDate s = some out) :
    ∃ y m d, y < 10000 ∧ 1 ≤ m ∧ m ≤ 12 ∧ 1 ≤ d ∧ d ≤ daysIn m y ∧
      out = dateOut y m d := by
  unfold parseDate at h
  cases hY : getYear4 s with
  | none => rw [hY] at h; exact absurd h (by simp)
  | some py =>
  obtain ⟨y, s1⟩ := py
  rw [hY] at h
  dsimp only at h
  cases hE1 : expectByte 47 s1 with
  | none => rw [hE1] at h; exact absurd h (by simp)
  | some s2 =>
  rw [hE1] at h
  dsimp only at h
  cases hM : lookupMonth s2 with
  | none => rw [hM] at h; exact absurd h (by simp)
  | some pm =>
  obtain ⟨m, s3⟩ := pm
  rw [hM] at h
  dsimp only at h
  cases hE2 : expectByte 47 s3 with
  | none => rw [hE2] at h; exact absurd h (by simp)
  | some s4 =>
  rw [hE2] at h
  dsimp only at h
  cases hD : getnum2 s4 with
  | none => rw [hD] at h; exact absurd h (by simp)
  | some pd =>
  obtain ⟨d, s5⟩ := pd
  rw [hD] at h
  dsimp only at h
  cases hE3 : expectByte 32 s5 with
  | none => rw [hE3] at h; exact absurd h (by simp)
  | some s6 =>
  rw [hE3] at h
  dsimp only at h
  cases hH : getnum1or2 s6 with
  | none => rw [hH] at h; exact absurd h (by simp)
  | some ph =>
  obtain ⟨hr, s7⟩ := ph
  rw [hH] at h
  dsimp only at h
  cases hE4 : expectByte 58 s7 with
  | none => rw [hE4] at h; exact absurd h (by simp)
  | some s8 =>
  rw [hE4] at h
  dsimp only at h
  cases hMi : getnum2 s8 with
  | none => rw [hMi] at h; exact absurd h (by simp)
  | some pmi =>
  obtain ⟨mi, s9⟩ := pmi
  rw [hMi] at h
  dsimp only at h
  cases hE5 : expectByte 58 s9 with
  | none => rw [hE5] at h; exact absurd h (by simp)
  | some s10 =>
  rw [hE5] at h
  dsimp only at h
  cases hSec : getnum2 s10 with
  | none => rw [hSec] at h; exact absurd h (by simp)
  | some psec =>
  obtain ⟨sec, s11⟩ := psec
  rw [hSec] at h
  dsimp only at h
  split_ifs at h with h1 h2 h3 h4 h5
  have hbound := lookupMonthAux_bound monthNames 1 s2 m s3 hM
  simp only [monthNames, List.length_cons, List.length_nil] at hbound
  push_neg at h5
  simp only [Option.some.injEq] at h
  exact ⟨y, m, d, getYear4_lt s y s1 hY, by omega, by omega, by omega, by omega, h.symm⟩

theorem parseDate_wrong_date_sep (c : Nat) (s : List Nat) (hc : c ≠ 47) :
    parseDate ([50, 48, 50, 53] ++ c :: s) = none := by
  unfold parseDate
  have h4 : getYear4 ([50, 48, 50, 53] ++ c :: s) = some (2025, c :: s) := rfl
  rw [h4]
  dsimp only
  have he : expectByte 47 (c :: s) = none := by
    simp [expectByte, hc]
  rw [he]

theorem parseDate_bad_month (s : List Nat) :
    parseDate ([50, 48, 50, 53, 47, 88, 121, 122] ++ s) = none := by
  unfold parseDate
  have h4 : getYear4 ([50, 48, 50, 53, 47, 88, 121, 122] ++ s) =
      some (2025, 47 :: 88 :: 121 :: 122 :: s) := rfl
  rw [h4]
  dsimp only
  rw [expectByte_cons]
  dsimp only
  have hm : lookupMonth (88 :: 121 :: 122 :: s) = none := by
    simp [lookupMonth, lookupMonthAux, monthNames, matchCI, eqFold, asciiOf]
  rw [hm]

theorem parseDate_wrong_time_sep (c : Nat) (s : List Nat) (hc : c ≠ 58) :
    parseDate ([50, 48, 50, 53, 47, 79, 99, 116, 47, 48, 49, 32, 48, 57] ++ c :: s) = none := by
  unfold parseDate
  have h4 : getYear4 ([50, 48, 50, 53, 47, 79, 99, 116, 47, 48, 49, 32, 48, 57] ++ c :: s) =
      some (2025, 47 :: 79 :: 99 :: 116 :: 47 :: 48 :: 49 :: 32 :: 48 :: 57 :: c :: s) := rfl
  rw [h4]
  dsimp only
  rw [expectByte_cons]
  dsimp only
  have hm : lookupMonth (79 :: 99 :: 116 :: 47 :: 48 :: 49 :: 32 :: 48 :: 57 :: c :: s) =
      some (10, 47 :: 48 :: 49 :: 32 :: 48 :: 57 :: c :: s) := rfl
  rw [hm]
  dsimp only
  rw [expectByte_cons]
  dsimp only
  have hd : getnum2 (48 :: 49 :: 32 :: 48 :: 57 :: c :: s) =
      some (1, 32 :: 48 :: 57 :: c :: s) := rfl
  rw [hd]
  dsimp only
  rw [expectByte_cons]
  dsimp only
  have hh : getnum1or2 (48 :: 57 :: c :: s) = some (9, c :: s) := rfl
  rw [hh]
  dsimp only
  have he : expectByte 58 (c :: s) = none := by
    simp [expectByte, hc]
  rw [he]

/-- C4 counterexample: a timestamp WITHOUT the fractional part parses
successfully (Go's `".999"` layout element is optional on parse), returning
the date — refuting the claim that a missing fractional part makes
extraction fail.  Input: "2025/Oct/01 09:30:02". -/
theorem c4_counterexample :
    parseDate (asciiOf ['2','0','2','5','/','O','c','t','/','0','1',' ',
      '0','9',':','3','0',':','0','2']) =
      some (asciiOf ['2','0','2','5','-','1','0','-','0','1']) := by
  decide

/-- C4 (amended): date extraction accepts the format `YYYY/Mon/DD H:MM:SS`
with an OPTIONAL fractional-seconds part — a '.' (or ',') followed by one
or more digits, not exactly three — a month abbreviation matched
case-insensitively against the table, a one-or-two-digit hour, two-digit
day/minute/second, and range-checked components; it returns the date as
zero-padded `YYYY-MM-DD` with the time of day discarded.  Deviations such
as a wrong date separator, an unparseable month name, or a wrong time
separator still fail, and every successful parse yields a well-formed date
of in-range components. -/
theorem c4_parse_date :
    (∀ (y mon d h mi sec : Nat) (frac : List Nat),
      y < 10000 → 1 ≤ mon → mon ≤ 12 → 1 ≤ d → d ≤ daysIn mon y →
      h < 24 → mi < 60 → sec < 60 →
      (frac = [] ∨ ∃ ds, frac = 46 :: ds ∧ ds ≠ [] ∧ ∀ c ∈ ds, isDigitByte c = true) →
      parseDate (buildTs y mon d h mi sec frac) = some (dateOut y mon d)) ∧
    (∀ s out, parseDate s = some out →
      ∃ y m d, y < 10000 ∧ 1 ≤ m ∧ m ≤ 12 ∧ 1 ≤ d ∧ d ≤ daysIn m y ∧
        out = dateOut y m d) ∧
    (∀ c s, c ≠ 47 → parseDate ([50, 48, 50, 53] ++ c :: s) = none) ∧
    (∀ s, parseDate ([50, 48, 50, 53, 47, 88, 121, 122] ++ s) = none) ∧
    (∀ c s, c ≠ 58 →
      parseDate ([50, 48, 50, 53, 47, 79, 99, 116, 47, 48, 49, 32, 48, 57] ++ c :: s) = none) :=
  ⟨fun y mon d h mi sec frac hy hm1 hm2 hd1 hd2 hh hmi hsec hfrac =>
      parseDate_valid y mon d h mi sec frac hy hm1 hm2 hd1 hd2 hh hmi hsec hfrac,
   parseDate_shape,
   parseDate_wrong_date_sep,
   parseDate_bad_month,
   parseDate_wrong_time_sep⟩

/-- Witness for C4: the amended theorem applied at the concrete timestamp
"2025/Oct/01 09:30:02.800" (and its deviating variants with a '-' date
separator, the month "Xyz", and a '-' time separator). -/
theorem c4_parse_date_witness :
    parseDate (buildTs 2025 10 1 9 30 2 [46, 56, 48, 48]) = some (dateOut 2025 10 1) ∧
    (∃ y m d, y < 10000 ∧ 1 ≤ m ∧ m ≤ 12 ∧ 1 ≤ d ∧ d ≤ daysIn m y ∧
      asciiOf ['2','0','2','5','-','1','0','-','0','1'] = dateOut y m d) ∧
    parseDate ([50, 48, 50, 53] ++ 45 :: []) = none ∧
    parseDate ([50, 48, 50, 53, 47, 88, 121, 122] ++ []) = none ∧
    parseDate ([50, 48, 50, 53, 47, 79, 99, 116, 47, 48, 49, 32, 48, 57] ++ 45 :: []) = none :=
  ⟨c4_parse_date.1 2025 10 1 9 30 2 [46, 56, 48, 48] (by omega) (by omega) (by omega)
      (by omega) (by decide) (by omega) (by omega) (by omega)
      (Or.inr ⟨[56, 48, 48], rfl, by decide, by decide⟩),
   c4_parse_date.2.1 (asciiOf ['2','0','2','5','/','O','c','t','/','0','1',' ',
      '0','9',':','3','0',':','0','2']) (asciiOf ['2','0','2','5','-','1','0','-','0','1'])
      (by decide),
   c4_parse_date.2.2.1 45 [] (by decide),
   c4_parse_date.2.2.2.1 [],
   c4_parse_date.2.2.2.2 45 [] (by decide)⟩

end CompactMapper
